import Mathlib

/-!
Verification of the `mach_ports` crate: a shallow embedding of the message
buffer (`src/msg/buffer.rs`), the message builder (`src/msg/builder.rs`), the
parser stack (`src/msg/parser.rs`), the out-of-line buffer types
(`src/msg/ool.rs`) and the right wrappers (`src/rights.rs`).

Conventions of the embedding:
* Bytes are `Nat` values; multi-byte fields use the little-endian (native on
  the supported hosts) encoding that `to_ne_bytes`/`from_ne_bytes` produce.
* Machine integers are modelled as `Nat` (resp. `Int` for `msgh_id` and
  kern_return codes); wrap-around is made explicit with `% 2^32` where the
  source arithmetic can wrap.
* A Rust function that can panic (assert failure, `unwrap`, `unreachable!`,
  `unimplemented!`) is modelled as returning `Option`, with `none` for the
  panic.
* Kernel side effects (releasing a port-right reference with
  `mach_port_mod_refs`, unmapping a VM region with `mach_vm_deallocate`) are
  recorded as explicit `Released` events instead of being performed.
-/

namespace MachPorts

/-! ## Byte-level helpers (native-endian encodings used by the crate) -/

/-- Little-endian 4-byte encoding of a `u32` value (`to_ne_bytes`). -/
def toBytes4 (n : Nat) : List Nat :=
  [n % 256, n / 256 % 256, n / 65536 % 256, n / 16777216 % 256]

/-- Little-endian 8-byte encoding of a `u64` value. -/
def toBytes8 (n : Nat) : List Nat :=
  toBytes4 (n % 4294967296) ++ toBytes4 (n / 4294967296)

/-- Read a native-endian `u32` at byte offset `off` (`from_ne_bytes`). -/
def readU32 (body : List Nat) (off : Nat) : Nat :=
  body.getD off 0 + body.getD (off + 1) 0 * 256 + body.getD (off + 2) 0 * 65536
    + body.getD (off + 3) 0 * 16777216

/-- Read a native-endian `u64` at byte offset `off`. -/
def readU64 (body : List Nat) (off : Nat) : Nat :=
  readU32 body off + readU32 body (off + 4) * 4294967296

/-- Overwrite the first four body bytes with the `u32` encoding of `n`
(the `*bytes = count.to_ne_bytes()` store in `inc_desc_count`). -/
def writeU32head (body : List Nat) (n : Nat) : List Nat :=
  toBytes4 n ++ body.drop 4

/-! ## Mach constants (values from the `mach2` crate, matching the kernel ABI) -/

def MACH_PORT_NULL : Nat := 0
def MACH_MSG_TYPE_MOVE_RECEIVE : Nat := 16
def MACH_MSG_TYPE_MOVE_SEND : Nat := 17
def MACH_MSG_TYPE_MOVE_SEND_ONCE : Nat := 18
def MACH_MSG_TYPE_COPY_SEND : Nat := 19
def MACH_MSG_TYPE_MAKE_SEND : Nat := 20
def MACH_MSG_TYPE_MAKE_SEND_ONCE : Nat := 21
def MACH_MSG_TYPE_COPY_RECEIVE : Nat := 22
def MACH_MSG_PORT_DESCRIPTOR : Nat := 0
def MACH_MSG_OOL_DESCRIPTOR : Nat := 1
def MACH_MSG_OOL_PORTS_DESCRIPTOR : Nat := 2
def MACH_MSG_OOL_VOLATILE_DESCRIPTOR : Nat := 3
def MACH_MSG_PHYSICAL_COPY : Nat := 0
def MACH_MSG_VIRTUAL_COPY : Nat := 1
def KERN_SUCCESS : Int := 0
def KERN_INVALID_RIGHT : Int := 17
def MACH_PORT_RIGHT_SEND : Nat := 0
def MACH_PORT_RIGHT_RECEIVE : Nat := 1
def MACH_PORT_RIGHT_SEND_ONCE : Nat := 2
def MACH_PORT_RIGHT_DEAD_NAME : Nat := 4

/-! ## `MachMsgBits` (src/msg/mod.rs)

The source wraps the raw `mach_msg_bits_t` word in a struct whose only
operations are the field accessors/updaters below, with asserts keeping every
stored value inside the `MACH_MSGH_BITS_USER` mask.  The embedding represents
the well-formed words directly by their four fields (complex flag and the
three 5-bit disposition codes); each operation mirrors the corresponding
mask/shift operation of the source. -/

structure MachMsgBits where
  complex : Bool
  remote : Nat
  local_ : Nat
  voucher : Nat
deriving DecidableEq

/-- `MachMsgBits::new(complex, remote, local, voucher)`. -/
def MachMsgBits.new (complex : Bool) (remote local_ voucher : Nat) : MachMsgBits :=
  ⟨complex, remote, local_, voucher⟩

/-- `MachMsgBits::set_local` — replaces the local disposition bits only. -/
def MachMsgBits.set_local (b : MachMsgBits) (bits : Nat) : MachMsgBits :=
  { b with local_ := bits }

/-- `MachMsgBits::set_remote` — replaces the remote disposition bits only. -/
def MachMsgBits.set_remote (b : MachMsgBits) (bits : Nat) : MachMsgBits :=
  { b with remote := bits }

/-- `MachMsgBits::into_complex` — sets the complex flag. -/
def MachMsgBits.into_complex (b : MachMsgBits) : MachMsgBits :=
  { b with complex := true }

/-! ## Message header and `Buffer` (src/msg/buffer.rs) -/

/-- `mach_msg_header_t`.  The header is stored in front of the body and is
never part of the `body` byte list. -/
structure MachMsgHeader where
  msgh_bits : MachMsgBits
  msgh_size : Nat
  msgh_remote_port : Nat
  msgh_local_port : Nat
  msgh_voucher_port : Nat
  msgh_id : Int
deriving DecidableEq

/-- The all-zero header produced by `Buffer::with_capacity` (the allocation
zeroes the header before use). -/
def zeroHeader : MachMsgHeader :=
  ⟨⟨false, 0, 0, 0⟩, 0, 0, 0, 0, 0⟩

/-- `Buffer`: a header plus `len` inline body bytes inside an allocation of
`capacity` bytes.  `body.length` plays the role of the `len` field (the body
view the source exposes is exactly the first `len` bytes). -/
structure Buffer where
  header : MachMsgHeader
  body : List Nat
  capacity : Nat
deriving DecidableEq

/-- `Buffer::with_capacity`. -/
def Buffer.with_capacity (capacity : Nat) : Buffer :=
  { header := zeroHeader, body := [], capacity := capacity }

/-- `Buffer::reserve(additional)`: grow geometrically when the requested
length `len + additional` exceeds the current capacity, else do nothing. -/
def Buffer.reserve (b : Buffer) (additional : Nat) : Buffer :=
  let requested_capacity := b.body.length + additional
  if requested_capacity > b.capacity then
    { b with capacity := max (b.capacity / 2) additional + b.capacity }
  else
    b

/-- `Buffer::append(bytes)`. -/
def Buffer.append (b : Buffer) (bytes : List Nat) : Buffer :=
  let space_left := b.capacity - b.body.length
  let b := if space_left < bytes.length then b.reserve (bytes.length - space_left) else b
  { b with body := b.body ++ bytes }

/-- `Buffer::insert(at, bytes)`; `none` models the `assert!(at <= self.len)`
panic.  The byte moves performed with `ptr::copy` amount to a list insert. -/
def Buffer.insert (b : Buffer) (at_ : Nat) (bytes : List Nat) : Option Buffer :=
  if at_ ≤ b.body.length then
    let space_left := b.capacity - b.body.length
    let final_len := bytes.length + at_
    let b := if space_left < final_len then b.reserve (final_len - space_left) else b
    some { b with body := b.body.take at_ ++ bytes ++ b.body.drop at_ }
  else
    none

/-- `Buffer::descriptors_count`: the first four body bytes read as a `u32`
when the complex bit is set, `0` otherwise. -/
def Buffer.descriptors_count (b : Buffer) : Nat :=
  if b.header.msgh_bits.complex then readU32 b.body 0 else 0

/-! ## Kernel resource releases

Every place the crate gives a reference back to the kernel — dropping a
`SendRight`/`SendOnceRight`/`RecvRight` wrapper (one `mach_port_mod_refs`
delta of `-1`) or dropping an `OolBuf` (one `mach_vm_deallocate` of the
region) — is recorded as one `Released` event. -/

inductive Released where
  | send (name : Nat)
  | sendOnce (name : Nat)
  | recv (name : Nat)
  | oolRegion (address size : Nat)
deriving DecidableEq

/-! ## Descriptor wire format (mach2 descriptor layouts)

`mach_msg_port_descriptor_t` is 12 bytes: `name: u32`, `pad1: u32`,
`pad2: u16`, `disposition: u8`, `type_: u8`.  `mach_msg_ool_descriptor_t` is
16 bytes: `address: u64`, `deallocate: u8`, `copy: u8`, `pad1: u8`,
`type_: u8`, `size: u32`.  In both, the type tag is byte 11, which is what
lets `next_desc_impl` read the tag through a port-descriptor-shaped prefix. -/

/-- Bytes of `mach_msg_port_descriptor_t::new(name, disposition)`. -/
def portDescBytes (name disposition : Nat) : List Nat :=
  toBytes4 name ++ toBytes4 0 ++ [0, 0, disposition % 256, MACH_MSG_PORT_DESCRIPTOR]

/-- Bytes of `mach_msg_ool_descriptor_t::new(address, deallocate, copy, size)`
(the builder only ever emits the non-volatile `MACH_MSG_OOL_DESCRIPTOR` tag). -/
def oolDescBytes (address : Nat) (deallocate : Bool) (copy size : Nat) : List Nat :=
  toBytes8 address ++ [if deallocate then 1 else 0, copy % 256, 0, MACH_MSG_OOL_DESCRIPTOR]
    ++ toBytes4 size

/-- `parser::TransmutedMsgDesc`: a descriptor as reinterpreted from the raw
bytes by `next_desc_impl` (the fields the crate subsequently reads). -/
inductive TransmutedMsgDesc where
  | port (name disposition : Nat)
  | ool (address deallocate copy size : Nat)
  | oolVolatile (address deallocate copy size : Nat)
  | oolPorts
deriving DecidableEq

/-- `parser::size_for_desc_type`; `none` is the `unreachable!` panic. -/
def size_for_desc_type (type_ : Nat) : Option Nat :=
  if type_ = MACH_MSG_PORT_DESCRIPTOR then some 12
  else if type_ = MACH_MSG_OOL_DESCRIPTOR ∨ type_ = MACH_MSG_OOL_VOLATILE_DESCRIPTOR then some 16
  else if type_ = MACH_MSG_OOL_PORTS_DESCRIPTOR then some 16
  else none

/-- `parser::next_desc_impl`: decode one descriptor at `offset` and return it
together with the advanced offset.  `bodySize` is `msgh_size - header` for a
received message and `body.length` for the builder's drop walk.  `none`
models the assert/slice-bound panics. -/
def next_desc_impl (body : List Nat) (bodySize offset : Nat) :
    Option (TransmutedMsgDesc × Nat) :=
  if offset < bodySize then
    let space_left := bodySize - offset
    if 12 ≤ space_left then
      let type_ := body.getD (offset + 11) 0
      match size_for_desc_type type_ with
      | none => none
      | some desc_size =>
        if desc_size ≤ space_left ∧ offset + desc_size ≤ body.length then
          let desc : Option TransmutedMsgDesc :=
            if type_ = MACH_MSG_PORT_DESCRIPTOR then
              some (.port (readU32 body offset) (body.getD (offset + 10) 0))
            else if type_ = MACH_MSG_OOL_DESCRIPTOR then
              some (.ool (readU64 body offset) (body.getD (offset + 8) 0)
                (body.getD (offset + 9) 0) (readU32 body (offset + 12)))
            else if type_ = MACH_MSG_OOL_VOLATILE_DESCRIPTOR then
              some (.oolVolatile (readU64 body offset) (body.getD (offset + 8) 0)
                (body.getD (offset + 9) 0) (readU32 body (offset + 12)))
            else if type_ = MACH_MSG_OOL_PORTS_DESCRIPTOR then
              some .oolPorts
            else none
          desc.map fun d => (d, offset + desc_size)
        else none
    else none
  else none

/-! ## `MsgBuilder` (src/msg/builder.rs) -/

structure MsgBuilder where
  buffer : Buffer
  inline_data_off : Nat
deriving DecidableEq

/-- `MsgBuilder::new` on a buffer. -/
def MsgBuilder.new (buffer : Buffer) : MsgBuilder :=
  { buffer := buffer, inline_data_off := 0 }

/-- `MsgBuilder::set_id`. -/
def MsgBuilder.set_id (s : MsgBuilder) (id : Int) : MsgBuilder :=
  { s with buffer := { s.buffer with header := { s.buffer.header with msgh_id := id } } }

/-- The release the current local/reply slot triggers: one `SendRight` or
`SendOnceRight` drop when the slot holds a non-null name with a move-send or
move-send-once disposition, nothing otherwise (the `match` inside
`release_reply_port`). -/
def releaseLocalSlot (h : MachMsgHeader) : List Released :=
  if h.msgh_local_port ≠ MACH_PORT_NULL then
    if h.msgh_bits.local_ = MACH_MSG_TYPE_MOVE_SEND then [.send h.msgh_local_port]
    else if h.msgh_bits.local_ = MACH_MSG_TYPE_MOVE_SEND_ONCE then [.sendOnce h.msgh_local_port]
    else []
  else []

/-- `MsgBuilder::release_reply_port`: release the slot's right, then null the
local port name. -/
def MsgBuilder.release_reply_port (s : MsgBuilder) : MsgBuilder × List Released :=
  let header := s.buffer.header
  let trace := releaseLocalSlot header
  let header := { header with msgh_local_port := MACH_PORT_NULL }
  ({ s with buffer := { s.buffer with header := header } }, trace)

/-- `MsgBuilder::set_made_reply_port(recv_right, once)`. -/
def MsgBuilder.set_made_reply_port (s : MsgBuilder) (name : Nat) (once : Bool) :
    MsgBuilder × List Released :=
  let (s, trace) := s.release_reply_port
  let header := s.buffer.header
  let local_bits := if once then MACH_MSG_TYPE_MAKE_SEND_ONCE else MACH_MSG_TYPE_MAKE_SEND
  let header := { header with
    msgh_local_port := name
    msgh_bits := header.msgh_bits.set_local local_bits }
  ({ s with buffer := { s.buffer with header := header } }, trace)

/-- `MsgBuilder::set_copied_reply_port(right)`. -/
def MsgBuilder.set_copied_reply_port (s : MsgBuilder) (name : Nat) :
    MsgBuilder × List Released :=
  let (s, trace) := s.release_reply_port
  let header := s.buffer.header
  let header := { header with
    msgh_local_port := name
    msgh_bits := header.msgh_bits.set_local MACH_MSG_TYPE_COPY_SEND }
  ({ s with buffer := { s.buffer with header := header } }, trace)

/-- `MsgBuilder::set_moved_reply_port(reply_port)`; `once` selects
`SendOnceRight` (`MSG_TYPE` 18) over `SendRight` (`MSG_TYPE` 17).  Note the
source rebuilds the bits with `MachMsgBits::new(complex, 0, local, voucher)`,
clearing the remote bits while keeping the voucher bits. -/
def MsgBuilder.set_moved_reply_port (s : MsgBuilder) (name : Nat) (once : Bool) :
    MsgBuilder × List Released :=
  let (s, trace) := s.release_reply_port
  let header := s.buffer.header
  let bits := header.msgh_bits
  let local_bits := if once then MACH_MSG_TYPE_MOVE_SEND_ONCE else MACH_MSG_TYPE_MOVE_SEND
  let header := { header with
    msgh_local_port := name
    msgh_bits := MachMsgBits.new bits.complex 0 local_bits bits.voucher }
  ({ s with buffer := { s.buffer with header := header } }, trace)

/-- `MsgBuilder::inc_desc_count(reserve_size)`: bump the stored descriptor
count when already complex; otherwise set the complex bit, insert a count of
`1` at body offset 0 and move `inline_data_off` past it.  `none` models the
slicing panic when a complex message has fewer than four body bytes. -/
def MsgBuilder.inc_desc_count (s : MsgBuilder) (reserve_size : Nat) : Option MsgBuilder :=
  let header := s.buffer.header
  if header.msgh_bits.complex then
    if 4 ≤ s.buffer.body.length then
      let count := (readU32 s.buffer.body 0 + 1) % 4294967296
      let buffer := { s.buffer with body := writeU32head s.buffer.body count }
      let buffer := buffer.reserve reserve_size
      some { s with buffer := buffer }
    else none
  else
    let header := { header with msgh_bits := header.msgh_bits.into_complex }
    let buffer := { s.buffer with header := header }
    let buffer := buffer.reserve (reserve_size + 4)
    (buffer.insert 0 (toBytes4 1)).map fun buffer =>
      { buffer := buffer, inline_data_off := 4 }

/-- `MsgBuilder::append_descriptor(bytes)`: bump the count, insert the
descriptor bytes at `inline_data_off`, advance `inline_data_off`. -/
def MsgBuilder.append_descriptor (s : MsgBuilder) (bytes : List Nat) : Option MsgBuilder := do
  let s ← s.inc_desc_count bytes.length
  let buffer ← s.buffer.insert s.inline_data_off bytes
  pure { buffer := buffer, inline_data_off := s.inline_data_off + bytes.length }

/-- `MsgBuilder::append_port_descriptor(name, disposition)`. -/
def MsgBuilder.append_port_descriptor (s : MsgBuilder) (name disposition : Nat) :
    Option MsgBuilder :=
  s.append_descriptor (portDescBytes name disposition)

/-- `MsgBuilder::append_made_send_right(recv_right, once)`. -/
def MsgBuilder.append_made_send_right (s : MsgBuilder) (name : Nat) (once : Bool) :
    Option MsgBuilder :=
  s.append_port_descriptor name
    (if once then MACH_MSG_TYPE_MAKE_SEND_ONCE else MACH_MSG_TYPE_MAKE_SEND)

/-- `MsgBuilder::append_copied_send_right(right)`. -/
def MsgBuilder.append_copied_send_right (s : MsgBuilder) (name : Nat) : Option MsgBuilder :=
  s.append_port_descriptor name MACH_MSG_TYPE_COPY_SEND

/-- `MsgBuilder::append_moved_right(right)`: the disposition is the moved
wrapper's `MSG_TYPE` (move-receive 16, move-send 17, move-send-once 18). -/
def MsgBuilder.append_moved_right (s : MsgBuilder) (name msg_type : Nat) : Option MsgBuilder :=
  s.append_port_descriptor name msg_type

/-- `MsgBuilder::append_inline_data(data)`. -/
def MsgBuilder.append_inline_data (s : MsgBuilder) (data : List Nat) : MsgBuilder :=
  { s with buffer := s.buffer.append data }

/-- `MsgBuilder::insert_inline_data(at, data)`: offsets are relative to the
start of the inline data. -/
def MsgBuilder.insert_inline_data (s : MsgBuilder) (at_ : Nat) (data : List Nat) :
    Option MsgBuilder :=
  (s.buffer.insert (s.inline_data_off + at_) data).map fun buffer => { s with buffer := buffer }

/-- `MsgBuilder::append_ool_data(data, copy_kind)`: borrowed slice, the
deallocate flag stays `false`. -/
def MsgBuilder.append_ool_data (s : MsgBuilder) (address size copy_kind : Nat) :
    Option MsgBuilder :=
  s.append_descriptor (oolDescBytes address false copy_kind size)

/-- `MsgBuilder::append_consumed_ool_data(data, copy_kind)`: consumes the
`OolBuf`, the deallocate flag is set. -/
def MsgBuilder.append_consumed_ool_data (s : MsgBuilder) (address size copy_kind : Nat) :
    Option MsgBuilder :=
  s.append_descriptor (oolDescBytes address true copy_kind size)

/-! ## Builder drop cleanup (`drop_header` and `MsgBuilder::drop`) -/

/-- The local-port block of `builder::drop_header`: take the name out of the
header and release it according to the *local* disposition bits; copy/make
dispositions release nothing, any other value is `unreachable!` (`none`). -/
def dropHeaderLocalPart (h : MachMsgHeader) : Option (MachMsgHeader × List Released) :=
  if h.msgh_local_port ≠ MACH_PORT_NULL then
    let raw_name := h.msgh_local_port
    let h := { h with msgh_local_port := MACH_PORT_NULL }
    if h.msgh_bits.local_ = MACH_MSG_TYPE_MOVE_SEND then some (h, [.send raw_name])
    else if h.msgh_bits.local_ = MACH_MSG_TYPE_MOVE_SEND_ONCE then some (h, [.sendOnce raw_name])
    else if h.msgh_bits.local_ = MACH_MSG_TYPE_COPY_SEND
        ∨ h.msgh_bits.local_ = MACH_MSG_TYPE_MAKE_SEND
        ∨ h.msgh_bits.local_ = MACH_MSG_TYPE_MAKE_SEND_ONCE then some (h, [])
    else none
  else some (h, [])

/-- The voucher-port block of `builder::drop_header`.  Note the source
matches on `bits.local()` here as well (not `bits.voucher()`); the embedding
reproduces that. -/
def dropHeaderVoucherPart (h : MachMsgHeader) : Option (MachMsgHeader × List Released) :=
  if h.msgh_voucher_port ≠ MACH_PORT_NULL then
    let raw_name := h.msgh_voucher_port
    let h := { h with msgh_voucher_port := MACH_PORT_NULL }
    if h.msgh_bits.local_ = MACH_MSG_TYPE_MOVE_SEND then some (h, [.send raw_name])
    else if h.msgh_bits.local_ = MACH_MSG_TYPE_COPY_SEND then some (h, [])
    else none
  else some (h, [])

/-- `builder::drop_header`: release the local and voucher slots, assert the
remote slot is empty, clear all disposition bits (keeping the complex flag). -/
def drop_header (h : MachMsgHeader) : Option (MachMsgHeader × List Released) := do
  let (h, t1) ← dropHeaderLocalPart h
  let (h, t2) ← dropHeaderVoucherPart h
  if h.msgh_remote_port = MACH_PORT_NULL ∧ h.msgh_bits.remote = 0 then
    some ({ h with msgh_bits := MachMsgBits.new h.msgh_bits.complex 0 0 0 }, t1 ++ t2)
  else none

/-- What one descriptor releases in `MsgBuilder::drop`'s walk: move-kind port
descriptors release the matching right, copy/make kinds nothing, OOL (and
volatile OOL) descriptors unmap the region when the deallocate flag is set
(`none` for the `unreachable!`/`unimplemented!`/`NonNull::new().unwrap()`
panics). -/
def builderDescRelease : TransmutedMsgDesc → Option (List Released)
  | .port name disp =>
    if disp = MACH_MSG_TYPE_MOVE_SEND then some [.send name]
    else if disp = MACH_MSG_TYPE_MOVE_SEND_ONCE then some [.sendOnce name]
    else if disp = MACH_MSG_TYPE_MOVE_RECEIVE then some [.recv name]
    else if disp = MACH_MSG_TYPE_COPY_SEND ∨ disp = MACH_MSG_TYPE_COPY_RECEIVE
        ∨ disp = MACH_MSG_TYPE_MAKE_SEND ∨ disp = MACH_MSG_TYPE_MAKE_SEND_ONCE then some []
    else none
  | .ool address deallocate _ size | .oolVolatile address deallocate _ size =>
    if deallocate ≠ 0 then
      if address ≠ 0 then some [.oolRegion address size] else none
    else some []
  | .oolPorts => none

/-- The `while count > 0` descriptor walk of `MsgBuilder::drop` (the
`received` flag is `false`, so the body size is the buffer's length). -/
def builderDropWalk (body : List Nat) (bodySize : Nat) :
    Nat → Nat → Option (List Released)
  | 0, _ => some []
  | count + 1, offset => do
    let (desc, offset') ← next_desc_impl body bodySize offset
    let rel ← builderDescRelease desc
    let rest ← builderDropWalk body bodySize count offset'
    pure (rel ++ rest)

/-- `MsgBuilder::drop`: run `drop_header`, then walk every descriptor once,
starting right after the 4-byte count. -/
def MsgBuilder.drop (s : MsgBuilder) : Option (List Released) := do
  let (header, rel1) ← drop_header s.buffer.header
  let buffer := { s.buffer with header := header }
  let count := buffer.descriptors_count
  let rel2 ← builderDropWalk buffer.body buffer.body.length count 4
  pure (rel1 ++ rel2)

/-! ## Parser stack cleanup (src/msg/parser.rs) -/

/-- What one remaining descriptor releases in `DescParser::drop`: move-kind
port descriptors release the matching right; any other port disposition is
`unreachable!`, and OOL, volatile OOL and OOL-ports descriptors all hit
`unimplemented!` — a panic, not a release (`none`). -/
def parserDescRelease : TransmutedMsgDesc → Option (List Released)
  | .port name disp =>
    if disp = MACH_MSG_TYPE_MOVE_SEND then some [.send name]
    else if disp = MACH_MSG_TYPE_MOVE_SEND_ONCE then some [.sendOnce name]
    else if disp = MACH_MSG_TYPE_MOVE_RECEIVE then some [.recv name]
    else none
  | .ool _ _ _ _ | .oolVolatile _ _ _ _ => none
  | .oolPorts => none

/-- The `while self.count > 0` loop of `DescParser::drop` (`received` is
`true`: the body size comes from `msgh_size`). -/
def descParserDropWalk (body : List Nat) (bodySize : Nat) :
    Nat → Nat → Option (List Released)
  | 0, _ => some []
  | count + 1, offset => do
    let (desc, offset') ← next_desc_impl body bodySize offset
    let rel ← parserDescRelease desc
    let rest ← descParserDropWalk body bodySize count offset'
    pure (rel ++ rest)

/-- The rights `parse_header_impl` reconstructs from the header, which are
released when the parsed header is dropped: a voucher `SendRight` (only
copy-send/move-send bits are accepted there) and a reply `SendRight` or
`SendOnceRight` from the remote slot (only move-send/move-send-once bits). -/
def parseHeaderRights (h : MachMsgHeader) : Option (List Released) := do
  let voucher ←
    if h.msgh_voucher_port ≠ MACH_PORT_NULL then
      if h.msgh_bits.voucher = MACH_MSG_TYPE_COPY_SEND
          ∨ h.msgh_bits.voucher = MACH_MSG_TYPE_MOVE_SEND then
        some [Released.send h.msgh_voucher_port]
      else none
    else some []
  let reply ←
    if h.msgh_remote_port ≠ MACH_PORT_NULL then
      if h.msgh_bits.remote = MACH_MSG_TYPE_MOVE_SEND then
        some [Released.send h.msgh_remote_port]
      else if h.msgh_bits.remote = MACH_MSG_TYPE_MOVE_SEND_ONCE then
        some [Released.sendOnce h.msgh_remote_port]
      else none
    else some []
  pure (voucher ++ reply)

/-- `mem::size_of::<mach_msg_header_t>()`: six 32-bit fields. -/
def headerByteSize : Nat := 24

/-- `MsgParser::drop` before `parse_header` was called: run
`parse_header_impl` and drop its results, i.e. release the header's rights
and then run the `DescParser` drop walk over all `descriptors_count`
descriptors (starting after the count field). -/
def msgParserDrop (b : Buffer) : Option (List Released) := do
  let hdrRel ← parseHeaderRights b.header
  let count := b.descriptors_count
  let descRel ←
    if count > 0 then
      descParserDropWalk b.body (b.header.msgh_size - headerByteSize) count 4
    else some []
  pure (hdrRel ++ descRel)

/-! ## `OolVec` (src/msg/ool.rs)

The vector is a VM-backed region of `capacity` bytes of which the first
`len` are initialized; the embedding keeps exactly those initialized bytes as
`data` (so `data.length` is the `len` field).  No operation of the type can
grow the region. -/

/-- The `NotEnoughCapacity` error struct. -/
structure NotEnoughCapacity where
  required_capacity : Nat
  available_capacity : Nat
deriving DecidableEq

structure OolVec where
  data : List Nat
  capacity : Nat
deriving DecidableEq

/-- `OolVec::try_extend_from_slice`: appends when the free space suffices,
otherwise returns the error and leaves the vector untouched (the source's
error arm performs no write). -/
def OolVec.try_extend_from_slice (v : OolVec) (slice : List Nat) :
    OolVec × Option NotEnoughCapacity :=
  let available_capacity := v.capacity - v.data.length
  if slice.length ≤ available_capacity then
    ({ v with data := v.data ++ slice }, none)
  else
    (v, some ⟨slice.length, available_capacity⟩)

/-- `OolVec::try_push`. -/
def OolVec.try_push (v : OolVec) (value : Nat) : OolVec × Option NotEnoughCapacity :=
  v.try_extend_from_slice [value]

/-- `OolVec::extend_from_slice` (`try_extend_from_slice(..).unwrap()`);
`none` is the unwrap panic. -/
def OolVec.extend_from_slice (v : OolVec) (slice : List Nat) : Option OolVec :=
  match v.try_extend_from_slice slice with
  | (v', none) => some v'
  | (_, some _) => none

/-- `OolVec::push` (`try_push(..).unwrap()`). -/
def OolVec.push (v : OolVec) (value : Nat) : Option OolVec :=
  match v.try_push value with
  | (v', none) => some v'
  | (_, some _) => none

/-- `OolVec::resize(new_len, value)`: rejects `new_len > capacity` with
`NotEnoughCapacity`, fills the grown tail with `value`, then calls
`set_len(new_len)` whose `assert!(new_len < self.capacity())` is the outer
`none` (panic). -/
def OolVec.resize (v : OolVec) (new_len value : Nat) :
    Option (Except NotEnoughCapacity OolVec) :=
  let available_capacity := v.capacity
  if new_len ≤ available_capacity then
    let filled :=
      if v.data.length < new_len then
        v.data ++ List.replicate (new_len - v.data.length) value
      else v.data
    if new_len < v.capacity then
      some (.ok { v with data := filled.take new_len })
    else none
  else
    some (.error ⟨new_len, available_capacity⟩)

/-- `OolVec::pop`. -/
def OolVec.pop (v : OolVec) : Option Nat × OolVec :=
  match v.data.getLast? with
  | none => (none, v)
  | some value => (some value, { v with data := v.data.dropLast })

/-- `OolVec::shrink_to_fit` = `self.buf.shrink_to(self.len)`; `shrink_to`
asserts `target_capacity <= cur_capacity` and ends with
`self.capacity = target_capacity` (the partial `mach_vm_deallocate` of the
freed page tail is an external kernel call). -/
def OolVec.shrink_to_fit (v : OolVec) : Option OolVec :=
  if v.data.length ≤ v.capacity then some { v with capacity := v.data.length }
  else none

/-- The `Extend<u8>` impl: `for value in iter { self.push(value) }`. -/
def OolVec.extend (v : OolVec) (iter : List Nat) : Option OolVec :=
  iter.foldlM OolVec.push v

/-! ## Right wrappers (src/rights.rs)

The kernel's `mach_port_mod_refs` is an opaque collaborator; it is modelled
as a function `kernel : name → right-class → delta → kern_return_t` and each
wrapper operation is characterized by the list of kernel calls it issues. -/

/-- One `mach_port_mod_refs(mach_task_self(), name, right, delta)` call. -/
structure KernelCall where
  name : Nat
  right : Nat
  delta : Int
deriving DecidableEq

/-- `rights::mod_refs_wrapper`: issue the delta against the given right
class; if that reports `KERN_INVALID_RIGHT` (the right became a dead name),
retry once against the dead-name class with the same delta. -/
def mod_refs_wrapper (kernel : Nat → Nat → Int → Int) (name right : Nat) (delta : Int) :
    Int × List KernelCall :=
  let result := kernel name right delta
  if result = KERN_INVALID_RIGHT then
    (kernel name MACH_PORT_RIGHT_DEAD_NAME delta,
      [⟨name, right, delta⟩, ⟨name, MACH_PORT_RIGHT_DEAD_NAME, delta⟩])
  else
    (result, [⟨name, right, delta⟩])

/-- `<SendRight as Drop>::drop`: `self.mod_refs(-1)` against the send class,
ignoring the result (no error can surface). -/
def SendRight.drop (kernel : Nat → Nat → Int → Int) (name : Nat) : List KernelCall :=
  (mod_refs_wrapper kernel name MACH_PORT_RIGHT_SEND (-1)).2

/-- `<SendOnceRight as Drop>::drop`. -/
def SendOnceRight.drop (kernel : Nat → Nat → Int → Int) (name : Nat) : List KernelCall :=
  (mod_refs_wrapper kernel name MACH_PORT_RIGHT_SEND_ONCE (-1)).2

/-- `<RecvRight as Drop>::drop`. -/
def RecvRight.drop (kernel : Nat → Nat → Int → Int) (name : Nat) : List KernelCall :=
  (mod_refs_wrapper kernel name MACH_PORT_RIGHT_RECEIVE (-1)).2

/-! ## Reply-port setter calls (for the multi-call contract) -/

/-- One public `set_*_reply_port` call with its arguments. -/
inductive ReplyOp where
  | made (name : Nat) (once : Bool)
  | copied (name : Nat)
  | moved (name : Nat) (once : Bool)
deriving DecidableEq

def applyReplyOp (s : MsgBuilder) : ReplyOp → MsgBuilder × List Released
  | .made name once => s.set_made_reply_port name once
  | .copied name => s.set_copied_reply_port name
  | .moved name once => s.set_moved_reply_port name once

def applyReplyOps (s : MsgBuilder) : List ReplyOp → MsgBuilder × List Released
  | [] => (s, [])
  | op :: rest =>
    let r1 := applyReplyOp s op
    let r2 := applyReplyOps r1.1 rest
    (r2.1, r1.2 ++ r2.2)

/-- The raw name a `set_*_reply_port` call writes into the local slot. -/
def ReplyOp.name : ReplyOp → Nat
  | .made n _ => n
  | .copied n => n
  | .moved n _ => n

/-- The disposition bits a `set_*_reply_port` call writes. -/
def ReplyOp.disposition : ReplyOp → Nat
  | .made _ once => if once then MACH_MSG_TYPE_MAKE_SEND_ONCE else MACH_MSG_TYPE_MAKE_SEND
  | .copied _ => MACH_MSG_TYPE_COPY_SEND
  | .moved _ once => if once then MACH_MSG_TYPE_MOVE_SEND_ONCE else MACH_MSG_TYPE_MOVE_SEND

/-- What a later `set_*_reply_port` call releases for this one: the moved
right, when the call moved a non-null right; nothing for made/copied. -/
def ReplyOp.movedRelease : ReplyOp → List Released
  | .moved name once =>
    if name ≠ MACH_PORT_NULL then
      [if once then Released.sendOnce name else Released.send name]
    else []
  | _ => []

/-! ## The builder's public call surface

`MsgBuilder` exposes exactly these mutating operations (there is no voucher
setter; `set_raw_remote_port` is crate-internal and only reachable through
`send`, which bypasses drop).  A call sequence is a `List AnyOp`. -/

inductive AnyOp where
  | setId (id : Int)
  | setMadeReply (name : Nat) (once : Bool)
  | setCopiedReply (name : Nat)
  | setMovedReply (name : Nat) (once : Bool)
  | appendMadeSend (name : Nat) (once : Bool)
  | appendCopiedSend (name : Nat)
  | appendMovedRight (name msg_type : Nat)
  | appendInline (data : List Nat)
  | insertInline (at_ : Nat) (data : List Nat)
  | appendOol (address size copy_kind : Nat)
  | appendConsumedOol (address size copy_kind : Nat)
deriving DecidableEq

def runAnyOp (s : MsgBuilder) : AnyOp → Option MsgBuilder
  | .setId id => some (s.set_id id)
  | .setMadeReply n o => some (s.set_made_reply_port n o).1
  | .setCopiedReply n => some (s.set_copied_reply_port n).1
  | .setMovedReply n o => some (s.set_moved_reply_port n o).1
  | .appendMadeSend n o => s.append_made_send_right n o
  | .appendCopiedSend n => s.append_copied_send_right n
  | .appendMovedRight n t => s.append_moved_right n t
  | .appendInline d => some (s.append_inline_data d)
  | .insertInline a d => s.insert_inline_data a d
  | .appendOol a sz c => s.append_ool_data a sz c
  | .appendConsumedOol a sz c => s.append_consumed_ool_data a sz c

def runAnyOps (s : MsgBuilder) (ops : List AnyOp) : Option MsgBuilder :=
  ops.foldlM runAnyOp s

/-- The descriptor record an op appends through `append_descriptor`
(`none` for the non-descriptor ops). -/
def AnyOp.descBytes : AnyOp → Option (List Nat)
  | .appendMadeSend n o =>
    some (portDescBytes n
      (if o then MACH_MSG_TYPE_MAKE_SEND_ONCE else MACH_MSG_TYPE_MAKE_SEND))
  | .appendCopiedSend n => some (portDescBytes n MACH_MSG_TYPE_COPY_SEND)
  | .appendMovedRight n t => some (portDescBytes n t)
  | .appendOol a sz c => some (oolDescBytes a false c sz)
  | .appendConsumedOol a sz c => some (oolDescBytes a true c sz)
  | _ => none

/-- The descriptor records appended by a call sequence, in call order. -/
def descChunks (ops : List AnyOp) : List (List Nat) :=
  ops.filterMap AnyOp.descBytes

/-! ## Helper lemmas -/

theorem getD_append_shift (pre rest : List Nat) (k : Nat) :
    (pre ++ rest).getD (pre.length + k) 0 = rest.getD k 0 := by
  rw [List.getD_append_right pre rest 0 (pre.length + k) (Nat.le_add_right _ _)]
  congr 1
  omega

theorem getD_append_self (pre rest : List Nat) :
    (pre ++ rest).getD pre.length 0 = rest.getD 0 0 := by
  have h := getD_append_shift pre rest 0
  simpa using h

theorem reserve_header (b : Buffer) (n : Nat) : (b.reserve n).header = b.header := by
  unfold Buffer.reserve
  dsimp only
  split <;> rfl

theorem reserve_body (b : Buffer) (n : Nat) : (b.reserve n).body = b.body := by
  unfold Buffer.reserve
  dsimp only
  split <;> rfl

/-- `Buffer.insert` in the non-panicking case: the resulting header and body,
with some capacity. -/
theorem insert_eq (buf : Buffer) (at_ : Nat) (bytes : List Nat)
    (h : at_ ≤ buf.body.length) :
    ∃ cap, buf.insert at_ bytes
      = some ⟨buf.header, buf.body.take at_ ++ bytes ++ buf.body.drop at_, cap⟩ := by
  unfold Buffer.insert
  rw [if_pos h]
  dsimp only
  split
  · exact ⟨_, by rw [reserve_body, reserve_header]⟩
  · exact ⟨buf.capacity, rfl⟩

/-! ## Claim theorems -/

/-- C3: dropping a `SendRight`, `SendOnceRight` or `RecvRight` issues one
`mach_port_mod_refs` with delta `-1` against the wrapper's own right class,
and exactly when that call returns `KERN_INVALID_RIGHT` it issues exactly one
retry with the same delta against the dead-name class; the drop returns
nothing, so no error reaches the caller in either case. -/
theorem right_drop_decrement_dead_name_retry :
    ∀ (kernel : Nat → Nat → Int → Int) (name : Nat),
      SendRight.drop kernel name =
        (if kernel name MACH_PORT_RIGHT_SEND (-1) = KERN_INVALID_RIGHT then
          [⟨name, MACH_PORT_RIGHT_SEND, -1⟩, ⟨name, MACH_PORT_RIGHT_DEAD_NAME, -1⟩]
        else [⟨name, MACH_PORT_RIGHT_SEND, -1⟩]) ∧
      SendOnceRight.drop kernel name =
        (if kernel name MACH_PORT_RIGHT_SEND_ONCE (-1) = KERN_INVALID_RIGHT then
          [⟨name, MACH_PORT_RIGHT_SEND_ONCE, -1⟩, ⟨name, MACH_PORT_RIGHT_DEAD_NAME, -1⟩]
        else [⟨name, MACH_PORT_RIGHT_SEND_ONCE, -1⟩]) ∧
      RecvRight.drop kernel name =
        (if kernel name MACH_PORT_RIGHT_RECEIVE (-1) = KERN_INVALID_RIGHT then
          [⟨name, MACH_PORT_RIGHT_RECEIVE, -1⟩, ⟨name, MACH_PORT_RIGHT_DEAD_NAME, -1⟩]
        else [⟨name, MACH_PORT_RIGHT_RECEIVE, -1⟩]) := by
  intro kernel name
  refine ⟨?_, ?_, ?_⟩ <;>
    · simp only [SendRight.drop, SendOnceRight.drop, RecvRight.drop, mod_refs_wrapper]
      split <;> rfl

/-- C5: `Buffer::insert(at, b)` with `at ≤ len` produces a body of length
`len + k` whose first `at` bytes are unchanged, whose next `k` bytes are `b`,
and whose remaining bytes are the former bytes from position `at` on, with
the header untouched; `at > len` fails the `assert!(at <= len)`. -/
theorem buffer_insert_spec :
    ∀ (buf : Buffer) (at_ : Nat) (bytes : List Nat),
      (at_ ≤ buf.body.length →
        ∃ buf', buf.insert at_ bytes = some buf' ∧
          buf'.header = buf.header ∧
          buf'.body.length = buf.body.length + bytes.length ∧
          buf'.body.take at_ = buf.body.take at_ ∧
          (buf'.body.drop at_).take bytes.length = bytes ∧
          buf'.body.drop (at_ + bytes.length) = buf.body.drop at_) ∧
      (buf.body.length < at_ → buf.insert at_ bytes = none) := by
  intro buf at_ bytes
  constructor
  · intro h
    obtain ⟨cap, hEq⟩ := insert_eq buf at_ bytes h
    have hlenT : (buf.body.take at_).length = at_ := by
      simp [List.length_take]
      omega
    refine ⟨_, hEq, rfl, ?_, ?_, ?_, ?_⟩
    · simp [List.length_append]
      omega
    · show ((buf.body.take at_ ++ bytes) ++ buf.body.drop at_).take at_ = buf.body.take at_
      rw [List.append_assoc]
      exact List.take_left' hlenT
    · show (((buf.body.take at_ ++ bytes) ++ buf.body.drop at_).drop at_).take bytes.length
        = bytes
      rw [List.append_assoc, List.drop_left' hlenT]
      exact List.take_left' rfl
    · show ((buf.body.take at_ ++ bytes) ++ buf.body.drop at_).drop (at_ + bytes.length)
        = buf.body.drop at_
      refine List.drop_left' ?_
      simp [List.length_append, hlenT]
  · intro h
    unfold Buffer.insert
    rw [if_neg (by omega)]

/-- C5 witness at a concrete input. -/
theorem buffer_insert_spec_witness :
    (1 ≤ (Buffer.mk zeroHeader [1, 2, 3] 5).body.length →
      ∃ buf', (Buffer.mk zeroHeader [1, 2, 3] 5).insert 1 [9, 9] = some buf' ∧
        buf'.header = (Buffer.mk zeroHeader [1, 2, 3] 5).header ∧
        buf'.body.length = (Buffer.mk zeroHeader [1, 2, 3] 5).body.length + [9, 9].length ∧
        buf'.body.take 1 = (Buffer.mk zeroHeader [1, 2, 3] 5).body.take 1 ∧
        (buf'.body.drop 1).take [9, 9].length = [9, 9] ∧
        buf'.body.drop (1 + [9, 9].length) = (Buffer.mk zeroHeader [1, 2, 3] 5).body.drop 1) ∧
    (1 ≤ (Buffer.mk zeroHeader [1, 2, 3] 5).body.length) :=
  ⟨(buffer_insert_spec (Buffer.mk zeroHeader [1, 2, 3] 5) 1 [9, 9]).1, by decide⟩

/-- C6: `Buffer::reserve(additional)` is the identity when the free space is
at least `additional`; otherwise it sets the capacity to
`max(capacity / 2, additional) + capacity`; in all cases the header and body
are preserved and afterwards `capacity ≥ length`. -/
theorem buffer_reserve_spec :
    ∀ (buf : Buffer) (additional : Nat), buf.body.length ≤ buf.capacity →
      (buf.reserve additional).header = buf.header ∧
      (buf.reserve additional).body = buf.body ∧
      (additional ≤ buf.capacity - buf.body.length → buf.reserve additional = buf) ∧
      (buf.capacity - buf.body.length < additional →
        (buf.reserve additional).capacity
          = max (buf.capacity / 2) additional + buf.capacity) ∧
      (buf.reserve additional).body.length ≤ (buf.reserve additional).capacity := by
  intro buf additional hinv
  refine ⟨reserve_header _ _, reserve_body _ _, ?_, ?_, ?_⟩
  · intro h
    unfold Buffer.reserve
    rw [if_neg (by omega)]
  · intro h
    unfold Buffer.reserve
    rw [if_pos (by omega)]
  · rw [reserve_body]
    unfold Buffer.reserve
    dsimp only
    split
    · dsimp only
      omega
    · omega

/-- C6 witness at a concrete input. -/
theorem buffer_reserve_spec_witness :
    ((Buffer.mk zeroHeader [1, 2] 4).body.length ≤ (Buffer.mk zeroHeader [1, 2] 4).capacity) ∧
    ((Buffer.mk zeroHeader [1, 2] 4).capacity - (Buffer.mk zeroHeader [1, 2] 4).body.length < 7 →
      ((Buffer.mk zeroHeader [1, 2] 4).reserve 7).capacity
        = max ((Buffer.mk zeroHeader [1, 2] 4).capacity / 2) 7
            + (Buffer.mk zeroHeader [1, 2] 4).capacity) :=
  ⟨by decide, (buffer_reserve_spec (Buffer.mk zeroHeader [1, 2] 4) 7 (by decide)).2.2.2.1⟩

/-- C8: `OolVec::resize(new_len, value)` succeeds (filling the grown tail
with `value`) exactly when `new_len < capacity`; at `new_len = capacity` the
bound check of `resize` passes but `set_len`'s `assert!(new_len < capacity)`
panics; beyond the capacity it returns `NotEnoughCapacity` carrying `new_len`
as the required capacity. -/
theorem oolvec_resize_spec :
    ∀ (v : OolVec) (new_len value : Nat), v.data.length ≤ v.capacity →
      (new_len < v.capacity →
        v.resize new_len value = some (.ok
          ⟨v.data.take new_len ++ List.replicate (new_len - v.data.length) value,
            v.capacity⟩)) ∧
      (new_len = v.capacity → v.resize new_len value = none) ∧
      (v.capacity < new_len →
        v.resize new_len value = some (.error ⟨new_len, v.capacity⟩)) := by
  intro v new_len value hinv
  refine ⟨?_, ?_, ?_⟩
  · intro h
    unfold OolVec.resize
    rw [if_pos (Nat.le_of_lt h)]
    dsimp only
    rw [if_pos h]
    by_cases hlt : v.data.length < new_len
    · rw [if_pos hlt]
      have hfill : (v.data ++ List.replicate (new_len - v.data.length) value).take new_len
          = v.data ++ List.replicate (new_len - v.data.length) value := by
        apply List.take_of_length_le
        simp [List.length_append]
        omega
      have hdata : v.data.take new_len = v.data :=
        List.take_of_length_le (by omega)
      rw [hfill, hdata]
    · rw [if_neg hlt]
      have : new_len - v.data.length = 0 := by omega
      rw [this]
      simp
  · intro h
    unfold OolVec.resize
    rw [if_pos (Nat.le_of_eq h)]
    dsimp only
    rw [if_neg (by omega)]
  · intro h
    unfold OolVec.resize
    rw [if_neg (by omega)]

/-- C8 witness: `resize(0, _)` on a zero-capacity `OolVec` panics, and the
error case carries `new_len`. -/
theorem oolvec_resize_spec_witness :
    ((OolVec.mk [] 0).data.length ≤ (OolVec.mk [] 0).capacity) ∧
    ((0 : Nat) = (OolVec.mk [] 0).capacity → (OolVec.mk [] 0).resize 0 170 = none) ∧
    ((OolVec.mk [] 0).capacity < 3 →
      (OolVec.mk [] 0).resize 3 170 = some (.error ⟨3, 0⟩)) :=
  ⟨by decide, (oolvec_resize_spec (OolVec.mk [] 0) 0 170 (by decide)).2.1,
    (oolvec_resize_spec (OolVec.mk [] 0) 3 170 (by decide)).2.2⟩

/-- `OolVec::push` in the successful case appends one byte, requiring one
free byte of capacity. -/
theorem push_eq (v : OolVec) (value : Nat) (v' : OolVec) (h : v.push value = some v') :
    v'.capacity = v.capacity ∧ v'.data = v.data ++ [value] ∧ v.data.length < v.capacity := by
  by_cases hc : ([value] : List Nat).length ≤ v.capacity - v.data.length
  · simp only [OolVec.push, OolVec.try_push, OolVec.try_extend_from_slice, if_pos hc] at h
    cases h
    refine ⟨rfl, rfl, ?_⟩
    simp at hc
    omega
  · simp only [OolVec.push, OolVec.try_push, OolVec.try_extend_from_slice, if_neg hc] at h
    exact Option.noConfusion h

/-- The `Extend<u8>` loop preserves the capacity and the length invariant. -/
theorem extend_preserves :
    ∀ (iter : List Nat) (v v' : OolVec), v.data.length ≤ v.capacity →
      v.extend iter = some v' →
      v'.capacity = v.capacity ∧ v'.data.length ≤ v'.capacity := by
  intro iter
  induction iter with
  | nil =>
    intro v v' hinv h
    simp only [OolVec.extend, List.foldlM] at h
    cases h
    exact ⟨rfl, hinv⟩
  | cons a rest ih =>
    intro v v' hinv h
    simp only [OolVec.extend, List.foldlM] at h
    cases hp : v.push a with
    | none => rw [hp] at h; cases h
    | some v1 =>
      rw [hp] at h
      obtain ⟨hcap, hdata, hlt⟩ := push_eq v a v1 hp
      have hinv1 : v1.data.length ≤ v1.capacity := by
        rw [hcap, hdata]
        simp
        omega
      have := ih v1 v' hinv1 h
      rw [hcap] at this
      exact this

/-- C9: no `OolVec` operation increases the capacity; each preserves
`length ≤ capacity`; an extension that does not fit fails with
`NotEnoughCapacity` (or its unwrap panic) leaving the vector untouched. -/
theorem oolvec_capacity_invariants :
    ∀ (v : OolVec), v.data.length ≤ v.capacity →
      (∀ slice : List Nat,
        (v.try_extend_from_slice slice).1.capacity = v.capacity ∧
        (v.try_extend_from_slice slice).1.data.length ≤ v.capacity ∧
        (v.capacity - v.data.length < slice.length →
          v.try_extend_from_slice slice
            = (v, some ⟨slice.length, v.capacity - v.data.length⟩))) ∧
      (∀ value : Nat, v.capacity - v.data.length < 1 →
        v.try_push value = (v, some ⟨1, v.capacity - v.data.length⟩)) ∧
      (∀ slice v', v.extend_from_slice slice = some v' →
        v'.capacity = v.capacity ∧ v'.data.length ≤ v'.capacity) ∧
      (∀ value v', v.push value = some v' →
        v'.capacity = v.capacity ∧ v'.data.length ≤ v'.capacity) ∧
      (∀ new_len value r, v.resize new_len value = some (.ok r) →
        r.capacity = v.capacity ∧ r.data.length ≤ r.capacity) ∧
      (v.pop.2.capacity = v.capacity ∧ v.pop.2.data.length ≤ v.capacity) ∧
      (∀ v', v.shrink_to_fit = some v' →
        v'.capacity ≤ v.capacity ∧ v'.data.length ≤ v'.capacity) ∧
      (∀ iter v', v.extend iter = some v' →
        v'.capacity = v.capacity ∧ v'.data.length ≤ v'.capacity) := by
  intro v hinv
  refine ⟨?_, ?_, ?_, ?_, ?_, ?_, ?_, ?_⟩
  · intro slice
    by_cases hc : slice.length ≤ v.capacity - v.data.length
    · refine ⟨?_, ?_, ?_⟩
      · simp [OolVec.try_extend_from_slice, if_pos hc]
      · simp only [OolVec.try_extend_from_slice, if_pos hc]
        simp
        omega
      · intro h
        omega
    · refine ⟨?_, ?_, ?_⟩
      · simp [OolVec.try_extend_from_slice, if_neg hc]
      · simp only [OolVec.try_extend_from_slice, if_neg hc]
        exact hinv
      · intro _
        simp [OolVec.try_extend_from_slice, if_neg hc]
  · intro value h
    simp only [OolVec.try_push, OolVec.try_extend_from_slice]
    rw [if_neg (by simp; omega)]
    simp
  · intro slice v' h
    by_cases hc : slice.length ≤ v.capacity - v.data.length
    · simp only [OolVec.extend_from_slice, OolVec.try_extend_from_slice, if_pos hc] at h
      cases h
      refine ⟨rfl, ?_⟩
      simp
      omega
    · simp only [OolVec.extend_from_slice, OolVec.try_extend_from_slice, if_neg hc] at h
      exact Option.noConfusion h
  · intro value v' h
    obtain ⟨hcap, hdata, hlt⟩ := push_eq v value v' h
    refine ⟨hcap, ?_⟩
    rw [hcap, hdata]
    simp
    omega
  · intro new_len value r h
    unfold OolVec.resize at h
    by_cases h1 : new_len ≤ v.capacity
    · rw [if_pos h1] at h
      dsimp only at h
      by_cases h2 : new_len < v.capacity
      · rw [if_pos h2] at h
        simp only [Option.some.injEq, Except.ok.injEq] at h
        subst h
        refine ⟨rfl, ?_⟩
        simp [List.length_take]
        omega
      · rw [if_neg h2] at h
        cases h
    · rw [if_neg h1] at h
      simp at h
  · cases hl : v.data.getLast? with
    | none => simp [OolVec.pop, hl, hinv]
    | some value =>
      refine ⟨?_, ?_⟩
      · simp [OolVec.pop, hl]
      · simp only [OolVec.pop, hl]
        simp [List.length_dropLast]
        omega
  · intro v' h
    unfold OolVec.shrink_to_fit at h
    rw [if_pos hinv] at h
    cases h
    exact ⟨hinv, Nat.le_refl _⟩
  · intro iter v' h
    exact extend_preserves iter v v' hinv h

/-- C9 witness at a concrete input. -/
theorem oolvec_capacity_invariants_witness :
    ((OolVec.mk [5, 6] 3).data.length ≤ (OolVec.mk [5, 6] 3).capacity) ∧
    ((OolVec.mk [5, 6] 3).capacity - (OolVec.mk [5, 6] 3).data.length < ([7, 8] : List Nat).length →
      (OolVec.mk [5, 6] 3).try_extend_from_slice [7, 8]
        = (OolVec.mk [5, 6] 3, some ⟨([7, 8] : List Nat).length,
            (OolVec.mk [5, 6] 3).capacity - (OolVec.mk [5, 6] 3).data.length⟩)) :=
  ⟨by decide, ((oolvec_capacity_invariants (OolVec.mk [5, 6] 3) (by decide)).1 [7, 8]).2.2⟩

/-- Each `set_*_reply_port` call releases exactly the current slot's moved
right and writes its own name and disposition. -/
theorem applyReplyOp_spec (s : MsgBuilder) (op : ReplyOp) :
    (applyReplyOp s op).2 = releaseLocalSlot s.buffer.header ∧
    (applyReplyOp s op).1.buffer.header.msgh_local_port = op.name ∧
    (applyReplyOp s op).1.buffer.header.msgh_bits.local_ = op.disposition := by
  cases op <;>
    simp [applyReplyOp, MsgBuilder.set_made_reply_port, MsgBuilder.set_copied_reply_port,
      MsgBuilder.set_moved_reply_port, MsgBuilder.release_reply_port, MachMsgBits.set_local,
      MachMsgBits.new, ReplyOp.name, ReplyOp.disposition]

/-- After a `set_*_reply_port` call, the slot's pending release is exactly
the moved right that call stored (nothing for made/copied). -/
theorem releaseLocalSlot_applyReplyOp (s : MsgBuilder) (op : ReplyOp) :
    releaseLocalSlot (applyReplyOp s op).1.buffer.header = op.movedRelease := by
  cases op <;>
    · simp only [applyReplyOp, MsgBuilder.set_made_reply_port,
        MsgBuilder.set_copied_reply_port, MsgBuilder.set_moved_reply_port,
        MsgBuilder.release_reply_port, MachMsgBits.set_local, MachMsgBits.new,
        ReplyOp.movedRelease, releaseLocalSlot]
      split_ifs <;>
        simp_all [MACH_MSG_TYPE_MOVE_SEND, MACH_MSG_TYPE_MOVE_SEND_ONCE,
          MACH_MSG_TYPE_COPY_SEND, MACH_MSG_TYPE_MAKE_SEND, MACH_MSG_TYPE_MAKE_SEND_ONCE,
          MACH_PORT_NULL]

/-- C7: every `set_made/copied/moved_reply_port` call first releases the
right currently in the local/reply slot (exactly one Send/SendOnce reference
when the slot holds a non-null move-send/move-send-once right, nothing
otherwise) and then writes its own handle and disposition; hence a sequence
of such calls releases every previously moved reply right exactly once and
leaves the slot holding the last call's handle and disposition. -/
theorem reply_port_setter_release_contract :
    (∀ (s : MsgBuilder) (op : ReplyOp),
      (applyReplyOp s op).2 = releaseLocalSlot s.buffer.header ∧
      (applyReplyOp s op).1.buffer.header.msgh_local_port = op.name ∧
      (applyReplyOp s op).1.buffer.header.msgh_bits.local_ = op.disposition) ∧
    (∀ (ops : List ReplyOp) (op0 : ReplyOp) (s : MsgBuilder),
      (applyReplyOps s (op0 :: ops)).2
        = releaseLocalSlot s.buffer.header
          ++ ((op0 :: ops).dropLast.map ReplyOp.movedRelease).flatten ∧
      (applyReplyOps s (op0 :: ops)).1.buffer.header.msgh_local_port
        = (ops.getLastD op0).name ∧
      (applyReplyOps s (op0 :: ops)).1.buffer.header.msgh_bits.local_
        = (ops.getLastD op0).disposition) := by
  refine ⟨applyReplyOp_spec, ?_⟩
  intro ops
  induction ops with
  | nil =>
    intro op0 s
    obtain ⟨h1, h2, h3⟩ := applyReplyOp_spec s op0
    simp [applyReplyOps, h1, h2, h3]
  | cons op1 rest ih =>
    intro op0 s
    obtain ⟨ih1, ih2, ih3⟩ := ih op1 (applyReplyOp s op0).1
    refine ⟨?_, ?_, ?_⟩
    · show (applyReplyOp s op0).2 ++ (applyReplyOps (applyReplyOp s op0).1 (op1 :: rest)).2
        = _
      rw [ih1, (applyReplyOp_spec s op0).1, releaseLocalSlot_applyReplyOp]
      simp [List.dropLast_cons₂, List.append_assoc]
    · show (applyReplyOps (applyReplyOp s op0).1 (op1 :: rest)).1.buffer.header.msgh_local_port
        = _
      rw [List.getLastD_cons]
      exact ih2
    · show (applyReplyOps (applyReplyOp s op0).1 (op1 :: rest)).1.buffer.header.msgh_bits.local_
        = _
      rw [List.getLastD_cons]
      exact ih3

/-! ## Header-preservation helpers for the builder operations -/

theorem append_header (b : Buffer) (bytes : List Nat) : (b.append bytes).header = b.header := by
  unfold Buffer.append
  dsimp only
  split <;> simp [reserve_header]

theorem insert_header (b : Buffer) (at_ : Nat) (bytes : List Nat) (b' : Buffer)
    (h : b.insert at_ bytes = some b') : b'.header = b.header := by
  unfold Buffer.insert at h
  by_cases hc : at_ ≤ b.body.length
  · rw [if_pos hc] at h
    dsimp only at h
    split at h <;> (cases h; simp [reserve_header])
  · rw [if_neg hc] at h
    exact Option.noConfusion h

theorem into_complex_of_complex (b : MachMsgBits) (h : b.complex = true) :
    b.into_complex = b := by
  cases b
  simp_all [MachMsgBits.into_complex]

theorem inc_desc_count_header (s : MsgBuilder) (n : Nat) (s' : MsgBuilder)
    (h : s.inc_desc_count n = some s') :
    s'.buffer.header
      = { s.buffer.header with msgh_bits := s.buffer.header.msgh_bits.into_complex } := by
  unfold MsgBuilder.inc_desc_count at h
  by_cases hc : s.buffer.header.msgh_bits.complex
  · rw [if_pos hc] at h
    by_cases h4 : 4 ≤ s.buffer.body.length
    · rw [if_pos h4] at h
      cases h
      simp [reserve_header, into_complex_of_complex _ hc]
    · rw [if_neg h4] at h
      exact Option.noConfusion h
  · rw [if_neg hc] at h
    dsimp only at h
    cases hins : Buffer.insert
        ((Buffer.mk { s.buffer.header with
            msgh_bits := s.buffer.header.msgh_bits.into_complex }
          s.buffer.body s.buffer.capacity).reserve (n + 4)) 0 (toBytes4 1) with
    | none =>
      rw [hins] at h
      exact Option.noConfusion h
    | some buf =>
      rw [hins] at h
      cases h
      have := insert_header _ _ _ _ hins
      rw [this, reserve_header]

theorem append_descriptor_header (s : MsgBuilder) (bytes : List Nat) (s' : MsgBuilder)
    (h : s.append_descriptor bytes = some s') :
    s'.buffer.header
      = { s.buffer.header with msgh_bits := s.buffer.header.msgh_bits.into_complex } := by
  unfold MsgBuilder.append_descriptor at h
  cases hin : s.inc_desc_count bytes.length with
  | none =>
    rw [hin] at h
    exact Option.noConfusion h
  | some s1 =>
    rw [hin] at h
    simp only [Option.bind_eq_bind, Option.some_bind] at h
    cases hins : s1.buffer.insert s1.inline_data_off bytes with
    | none =>
      rw [hins] at h
      exact Option.noConfusion h
    | some buf2 =>
      rw [hins] at h
      simp only [Option.some_bind, pure, Option.some.injEq] at h
      subst h
      have h2 : buf2.header = s1.buffer.header := insert_header _ _ _ _ hins
      have h1 := inc_desc_count_header s bytes.length s1 hin
      simp [h2, h1]

/-- Every single builder call preserves a null voucher slot. -/
theorem runAnyOp_voucher (s : MsgBuilder) (op : AnyOp) (s' : MsgBuilder)
    (h : runAnyOp s op = some s')
    (hv : s.buffer.header.msgh_voucher_port = MACH_PORT_NULL ∧
      s.buffer.header.msgh_bits.voucher = 0) :
    s'.buffer.header.msgh_voucher_port = MACH_PORT_NULL ∧
    s'.buffer.header.msgh_bits.voucher = 0 := by
  cases op with
  | setId id =>
    simp only [runAnyOp, Option.some.injEq] at h
    subst h
    simpa [MsgBuilder.set_id] using hv
  | setMadeReply n o =>
    simp only [runAnyOp, Option.some.injEq] at h
    subst h
    simpa [MsgBuilder.set_made_reply_port, MsgBuilder.release_reply_port,
      MachMsgBits.set_local] using hv
  | setCopiedReply n =>
    simp only [runAnyOp, Option.some.injEq] at h
    subst h
    simpa [MsgBuilder.set_copied_reply_port, MsgBuilder.release_reply_port,
      MachMsgBits.set_local] using hv
  | setMovedReply n o =>
    simp only [runAnyOp, Option.some.injEq] at h
    subst h
    simpa [MsgBuilder.set_moved_reply_port, MsgBuilder.release_reply_port,
      MachMsgBits.new] using hv
  | appendMadeSend n o =>
    simp only [runAnyOp, MsgBuilder.append_made_send_right,
      MsgBuilder.append_port_descriptor] at h
    rw [append_descriptor_header s _ s' h]
    simpa [MachMsgBits.into_complex] using hv
  | appendCopiedSend n =>
    simp only [runAnyOp, MsgBuilder.append_copied_send_right,
      MsgBuilder.append_port_descriptor] at h
    rw [append_descriptor_header s _ s' h]
    simpa [MachMsgBits.into_complex] using hv
  | appendMovedRight n t =>
    simp only [runAnyOp, MsgBuilder.append_moved_right,
      MsgBuilder.append_port_descriptor] at h
    rw [append_descriptor_header s _ s' h]
    simpa [MachMsgBits.into_complex] using hv
  | appendInline d =>
    simp only [runAnyOp, Option.some.injEq] at h
    subst h
    simpa [MsgBuilder.append_inline_data, append_header] using hv
  | insertInline a d =>
    simp only [runAnyOp, MsgBuilder.insert_inline_data] at h
    cases hins : s.buffer.insert (s.inline_data_off + a) d with
    | none =>
      rw [hins] at h
      exact Option.noConfusion h
    | some buf =>
      rw [hins] at h
      simp only [Option.map_some', Option.some.injEq] at h
      subst h
      have := insert_header _ _ _ _ hins
      simpa [this] using hv
  | appendOol a sz c =>
    simp only [runAnyOp, MsgBuilder.append_ool_data] at h
    rw [append_descriptor_header s _ s' h]
    simpa [MachMsgBits.into_complex] using hv
  | appendConsumedOol a sz c =>
    simp only [runAnyOp, MsgBuilder.append_consumed_ool_data] at h
    rw [append_descriptor_header s _ s' h]
    simpa [MachMsgBits.into_complex] using hv

theorem runAnyOps_voucher :
    ∀ (ops : List AnyOp) (s s' : MsgBuilder),
      s.buffer.header.msgh_voucher_port = MACH_PORT_NULL ∧
        s.buffer.header.msgh_bits.voucher = 0 →
      runAnyOps s ops = some s' →
      s'.buffer.header.msgh_voucher_port = MACH_PORT_NULL ∧
      s'.buffer.header.msgh_bits.voucher = 0 := by
  intro ops
  induction ops with
  | nil =>
    intro s s' hv h
    simp only [runAnyOps, List.foldlM] at h
    cases h
    exact hv
  | cons op rest ih =>
    intro s s' hv h
    simp only [runAnyOps, List.foldlM] at h
    cases hop : runAnyOp s op with
    | none =>
      rw [hop] at h
      exact Option.noConfusion h
    | some s1 =>
      rw [hop] at h
      exact ih s1 s' (runAnyOp_voucher s op s1 hop hv) h

/-- C10: on a builder over a freshly allocated (zeroed-header) buffer, no
sequence of builder calls ever writes the voucher slot: the voucher port
stays null, the voucher disposition bits stay 0, so the voucher branch of
`drop_header` releases nothing and cannot panic. -/
theorem builder_voucher_slot_untouched :
    ∀ (cap : Nat) (ops : List AnyOp) (s' : MsgBuilder),
      runAnyOps (MsgBuilder.new (Buffer.with_capacity cap)) ops = some s' →
      s'.buffer.header.msgh_voucher_port = MACH_PORT_NULL ∧
      s'.buffer.header.msgh_bits.voucher = 0 ∧
      dropHeaderVoucherPart s'.buffer.header = some (s'.buffer.header, []) := by
  intro cap ops s' h
  have hv := runAnyOps_voucher ops (MsgBuilder.new (Buffer.with_capacity cap)) s'
    (by simp [MsgBuilder.new, Buffer.with_capacity, zeroHeader, MACH_PORT_NULL]) h
  refine ⟨hv.1, hv.2, ?_⟩
  unfold dropHeaderVoucherPart
  rw [if_neg (by simp [hv.1])]

/-- C10 witness at a concrete call sequence. -/
theorem builder_voucher_slot_untouched_witness :
    ∃ s', runAnyOps (MsgBuilder.new (Buffer.with_capacity 64))
        [.setMovedReply 5 false, .appendInline [1, 2], .appendMovedRight 7 17] = some s' ∧
      s'.buffer.header.msgh_voucher_port = MACH_PORT_NULL ∧
      s'.buffer.header.msgh_bits.voucher = 0 ∧
      dropHeaderVoucherPart s'.buffer.header = some (s'.buffer.header, []) := by
  cases hrun : runAnyOps (MsgBuilder.new (Buffer.with_capacity 64))
      [.setMovedReply 5 false, .appendInline [1, 2], .appendMovedRight 7 17] with
  | none => exact absurd hrun (by decide)
  | some s' => exact ⟨s', rfl, builder_voucher_slot_untouched 64 _ s' hrun⟩

/-! ## Body layout invariant of the builder (count ++ descriptors ++ inline) -/

theorem toBytes4_length (n : Nat) : (toBytes4 n).length = 4 := rfl

theorem readU32_toBytes4 (n : Nat) (rest : List Nat) :
    readU32 (toBytes4 n ++ rest) 0 = n % 4294967296 := by
  show n % 256 + n / 256 % 256 * 256 + n / 65536 % 256 * 65536
      + n / 16777216 % 256 * 16777216 = n % 4294967296
  omega

theorem toBytes4_mod (n : Nat) : toBytes4 (n % 4294967296) = toBytes4 n := by
  simp only [toBytes4, List.cons.injEq, and_true]
  omega

/-- The builder's body layout after the descriptor chunks `ds` have been
appended, with `inline` holding all inline bytes: a non-complex body is pure
inline data with `inline_data_off = 0`; a complex body is the 4-byte count of
`ds`, then the chunks of `ds` back to back, then the inline bytes, with
`inline_data_off` pointing right after the last descriptor. -/
def BuilderLayout (s : MsgBuilder) (ds : List (List Nat)) (inline : List Nat) : Prop :=
  match ds with
  | [] =>
    s.buffer.header.msgh_bits.complex = false ∧ s.inline_data_off = 0 ∧
      s.buffer.body = inline
  | _ :: _ =>
    s.buffer.header.msgh_bits.complex = true ∧
      s.inline_data_off = 4 + ds.flatten.length ∧
      s.buffer.body = toBytes4 ds.length ++ ds.flatten ++ inline

theorem inc_desc_count_not_complex (s : MsgBuilder) (n : Nat)
    (hc : s.buffer.header.msgh_bits.complex = false) :
    ∃ s1, s.inc_desc_count n = some s1 ∧
      s1.buffer.header
        = { s.buffer.header with msgh_bits := s.buffer.header.msgh_bits.into_complex } ∧
      s1.buffer.body = toBytes4 1 ++ s.buffer.body ∧
      s1.inline_data_off = 4 := by
  unfold MsgBuilder.inc_desc_count
  rw [if_neg (by simp [hc])]
  dsimp only
  obtain ⟨cap, hEq⟩ := insert_eq
    ((Buffer.mk { s.buffer.header with msgh_bits := s.buffer.header.msgh_bits.into_complex }
      s.buffer.body s.buffer.capacity).reserve (n + 4)) 0 (toBytes4 1)
    (by omega)
  rw [hEq]
  refine ⟨_, rfl, ?_, ?_, rfl⟩
  · show ((Buffer.mk _ s.buffer.body s.buffer.capacity).reserve (n + 4)).header = _
    rw [reserve_header]
  · show ((Buffer.mk { s.buffer.header with
        msgh_bits := s.buffer.header.msgh_bits.into_complex }
      s.buffer.body s.buffer.capacity).reserve (n + 4)).body.take 0 ++ toBytes4 1
      ++ ((Buffer.mk _ s.buffer.body s.buffer.capacity).reserve (n + 4)).body.drop 0 = _
    rw [reserve_body]
    simp

theorem inc_desc_count_complex (s : MsgBuilder) (n : Nat)
    (hc : s.buffer.header.msgh_bits.complex = true)
    (h4 : 4 ≤ s.buffer.body.length) :
    ∃ s1, s.inc_desc_count n = some s1 ∧
      s1.buffer.header = s.buffer.header ∧
      s1.buffer.body
        = toBytes4 ((readU32 s.buffer.body 0 + 1) % 4294967296) ++ s.buffer.body.drop 4 ∧
      s1.inline_data_off = s.inline_data_off := by
  unfold MsgBuilder.inc_desc_count
  rw [if_pos hc, if_pos h4]
  dsimp only
  exact ⟨_, rfl, reserve_header _ _, by rw [reserve_body]; rfl, rfl⟩

/-- Appending a descriptor record keeps the layout invariant, extending the
chunk list and leaving the inline bytes untouched. -/
theorem append_descriptor_layout (s : MsgBuilder) (bytes : List Nat) (s' : MsgBuilder)
    (ds : List (List Nat)) (inline : List Nat)
    (hL : BuilderLayout s ds inline)
    (hyp : s.append_descriptor bytes = some s') :
    BuilderLayout s' (ds ++ [bytes]) inline := by
  unfold MsgBuilder.append_descriptor at hyp
  cases ds with
  | nil =>
    obtain ⟨hc, hoff, hbody⟩ := hL
    obtain ⟨s1, hinc, hh1, hb1, ho1⟩ := inc_desc_count_not_complex s bytes.length hc
    rw [hinc] at hyp
    simp only [Option.bind_eq_bind, Option.some_bind] at hyp
    obtain ⟨cap2, hins⟩ := insert_eq s1.buffer s1.inline_data_off bytes
      (by rw [ho1, hb1]; simp [toBytes4_length])
    rw [hins] at hyp
    simp only [Option.some_bind, Option.pure_def, Option.some.injEq] at hyp
    subst hyp
    have htake : s1.buffer.body.take s1.inline_data_off = toBytes4 1 := by
      rw [ho1, hb1]
      exact List.take_left' (toBytes4_length 1)
    have hdrop : s1.buffer.body.drop s1.inline_data_off = inline := by
      rw [ho1, hb1, hbody]
      exact List.drop_left' (toBytes4_length 1)
    refine ⟨?_, ?_, ?_⟩
    · show s1.buffer.header.msgh_bits.complex = true
      rw [hh1]
      rfl
    · show s1.inline_data_off + bytes.length
        = 4 + ([bytes] : List (List Nat)).flatten.length
      rw [ho1]
      simp
    · show s1.buffer.body.take s1.inline_data_off ++ bytes
          ++ s1.buffer.body.drop s1.inline_data_off
        = toBytes4 ([bytes] : List (List Nat)).length ++ ([bytes] : List (List Nat)).flatten
          ++ inline
      rw [htake, hdrop]
      simp
  | cons d0 dsr =>
    obtain ⟨hc, hoff, hbody⟩ := hL
    have h4 : 4 ≤ s.buffer.body.length := by
      rw [hbody]
      simp [toBytes4_length]
    obtain ⟨s1, hinc, hh1, hb1, ho1⟩ := inc_desc_count_complex s bytes.length hc h4
    rw [hinc] at hyp
    simp only [Option.bind_eq_bind, Option.some_bind] at hyp
    set n := (d0 :: dsr).length with hn
    have hcount : readU32 s.buffer.body 0 = n % 4294967296 := by
      rw [hbody, List.append_assoc]
      exact readU32_toBytes4 _ _
    have hdrop4 : s.buffer.body.drop 4 = (d0 :: dsr).flatten ++ inline := by
      rw [hbody, List.append_assoc]
      exact List.drop_left' (toBytes4_length _)
    have hbody1 : s1.buffer.body = (toBytes4 (n + 1) ++ (d0 :: dsr).flatten) ++ inline := by
      rw [hb1, hcount, hdrop4]
      rw [show (n % 4294967296 + 1) % 4294967296 = (n + 1) % 4294967296 by omega]
      rw [toBytes4_mod, List.append_assoc]
    have hplen : (toBytes4 (n + 1) ++ (d0 :: dsr).flatten).length
        = 4 + (d0 :: dsr).flatten.length := by
      simp [toBytes4_length]
    obtain ⟨cap2, hins⟩ := insert_eq s1.buffer s1.inline_data_off bytes
      (by rw [ho1, hoff, hbody1]; simp [toBytes4_length])
    rw [hins] at hyp
    simp only [Option.some_bind, Option.pure_def, Option.some.injEq] at hyp
    subst hyp
    have htake : s1.buffer.body.take s1.inline_data_off
        = toBytes4 (n + 1) ++ (d0 :: dsr).flatten := by
      rw [ho1, hoff, hbody1]
      exact List.take_left' hplen
    have hdrop : s1.buffer.body.drop s1.inline_data_off = inline := by
      rw [ho1, hoff, hbody1]
      exact List.drop_left' hplen
    refine ⟨?_, ?_, ?_⟩
    · show s1.buffer.header.msgh_bits.complex = true
      rw [hh1]
      exact hc
    · show s1.inline_data_off + bytes.length
        = 4 + ((d0 :: dsr) ++ [bytes]).flatten.length
      rw [ho1, hoff]
      simp
      omega
    · show s1.buffer.body.take s1.inline_data_off ++ bytes
          ++ s1.buffer.body.drop s1.inline_data_off
        = toBytes4 ((d0 :: dsr) ++ [bytes]).length ++ ((d0 :: dsr) ++ [bytes]).flatten
          ++ inline
      rw [htake, hdrop]
      simp [hn, List.append_assoc]

theorem append_body (b : Buffer) (bytes : List Nat) :
    (b.append bytes).body = b.body ++ bytes := by
  unfold Buffer.append
  dsimp only
  split <;> simp [reserve_body]

theorem insert_some (b : Buffer) (at_ : Nat) (bytes : List Nat) (b' : Buffer)
    (h : b.insert at_ bytes = some b') :
    at_ ≤ b.body.length ∧
    b'.body = b.body.take at_ ++ bytes ++ b.body.drop at_ ∧
    b'.header = b.header := by
  unfold Buffer.insert at h
  by_cases hc : at_ ≤ b.body.length
  · rw [if_pos hc] at h
    dsimp only at h
    split at h <;> (cases h; exact ⟨hc, by simp [reserve_body], by simp [reserve_header]⟩)
  · rw [if_neg hc] at h
    exact Option.noConfusion h

theorem layout_of_same (s s' : MsgBuilder) (ds : List (List Nat)) (inline : List Nat)
    (hL : BuilderLayout s ds inline)
    (hcomplex : s'.buffer.header.msgh_bits.complex = s.buffer.header.msgh_bits.complex)
    (hbody : s'.buffer.body = s.buffer.body)
    (hoff : s'.inline_data_off = s.inline_data_off) :
    BuilderLayout s' ds inline := by
  cases ds <;>
    · obtain ⟨a, b, c⟩ := hL
      exact ⟨by rw [hcomplex]; exact a, by rw [hoff]; exact b, by rw [hbody]; exact c⟩

/-- Every single builder call preserves the layout invariant, appending its
descriptor chunk (if any) and only ever extending the inline region. -/
theorem runAnyOp_layout (s : MsgBuilder) (op : AnyOp) (s' : MsgBuilder)
    (ds : List (List Nat)) (inline : List Nat)
    (hL : BuilderLayout s ds inline)
    (h : runAnyOp s op = some s') :
    ∃ inline', BuilderLayout s' (ds ++ op.descBytes.toList) inline' := by
  cases op with
  | setId id =>
    simp only [runAnyOp, Option.some.injEq] at h
    subst h
    have hL' := layout_of_same s _ ds inline hL (by simp [MsgBuilder.set_id]) rfl rfl
    exact ⟨inline, by simpa [AnyOp.descBytes] using hL'⟩
  | setMadeReply n o =>
    simp only [runAnyOp, Option.some.injEq] at h
    subst h
    have hL' := layout_of_same s _ ds inline hL
      (by simp [MsgBuilder.set_made_reply_port, MsgBuilder.release_reply_port,
        MachMsgBits.set_local]) rfl rfl
    exact ⟨inline, by simpa [AnyOp.descBytes] using hL'⟩
  | setCopiedReply n =>
    simp only [runAnyOp, Option.some.injEq] at h
    subst h
    have hL' := layout_of_same s _ ds inline hL
      (by simp [MsgBuilder.set_copied_reply_port, MsgBuilder.release_reply_port,
        MachMsgBits.set_local]) rfl rfl
    exact ⟨inline, by simpa [AnyOp.descBytes] using hL'⟩
  | setMovedReply n o =>
    simp only [runAnyOp, Option.some.injEq] at h
    subst h
    have hL' := layout_of_same s _ ds inline hL
      (by simp [MsgBuilder.set_moved_reply_port, MsgBuilder.release_reply_port,
        MachMsgBits.new]) rfl rfl
    exact ⟨inline, by simpa [AnyOp.descBytes] using hL'⟩
  | appendMadeSend n o =>
    simp only [runAnyOp, MsgBuilder.append_made_send_right,
      MsgBuilder.append_port_descriptor] at h
    have hL' := append_descriptor_layout s _ s' ds inline hL h
    exact ⟨inline, by simpa [AnyOp.descBytes] using hL'⟩
  | appendCopiedSend n =>
    simp only [runAnyOp, MsgBuilder.append_copied_send_right,
      MsgBuilder.append_port_descriptor] at h
    have hL' := append_descriptor_layout s _ s' ds inline hL h
    exact ⟨inline, by simpa [AnyOp.descBytes] using hL'⟩
  | appendMovedRight n t =>
    simp only [runAnyOp, MsgBuilder.append_moved_right,
      MsgBuilder.append_port_descriptor] at h
    have hL' := append_descriptor_layout s _ s' ds inline hL h
    exact ⟨inline, by simpa [AnyOp.descBytes] using hL'⟩
  | appendOol a sz c =>
    simp only [runAnyOp, MsgBuilder.append_ool_data] at h
    have hL' := append_descriptor_layout s _ s' ds inline hL h
    exact ⟨inline, by simpa [AnyOp.descBytes] using hL'⟩
  | appendConsumedOol a sz c =>
    simp only [runAnyOp, MsgBuilder.append_consumed_ool_data] at h
    have hL' := append_descriptor_layout s _ s' ds inline hL h
    exact ⟨inline, by simpa [AnyOp.descBytes] using hL'⟩
  | appendInline d =>
    simp only [runAnyOp, Option.some.injEq] at h
    subst h
    refine ⟨inline ++ d, ?_⟩
    have hb := append_body s.buffer d
    have hh := append_header s.buffer d
    cases ds with
    | nil =>
      obtain ⟨hc, hoff, hbody⟩ := hL
      refine ⟨?_, ?_, ?_⟩
      · show (s.buffer.append d).header.msgh_bits.complex = false
        rw [hh]
        exact hc
      · exact hoff
      · show (s.buffer.append d).body = inline ++ d
        rw [hb, hbody]
    | cons d0 dsr =>
      obtain ⟨hc, hoff, hbody⟩ := hL
      refine ⟨?_, ?_, ?_⟩
      · show (s.buffer.append d).header.msgh_bits.complex = true
        rw [hh]
        exact hc
      · simpa [AnyOp.descBytes] using hoff
      · show (s.buffer.append d).body = _
        rw [hb, hbody]
        simp [List.append_assoc, AnyOp.descBytes]
  | insertInline a d =>
    simp only [runAnyOp, MsgBuilder.insert_inline_data] at h
    cases hins : s.buffer.insert (s.inline_data_off + a) d with
    | none =>
      rw [hins] at h
      exact Option.noConfusion h
    | some buf =>
      rw [hins] at h
      simp only [Option.map_some', Option.some.injEq] at h
      subst h
      obtain ⟨hle, hb, hh⟩ := insert_some _ _ _ _ hins
      refine ⟨inline.take a ++ d ++ inline.drop a, ?_⟩
      cases ds with
      | nil =>
        obtain ⟨hc, hoff, hbody⟩ := hL
        refine ⟨?_, hoff, ?_⟩
        · show buf.header.msgh_bits.complex = false
          rw [hh]
          exact hc
        · rw [hb, hbody, hoff]
          simp
      | cons d0 dsr =>
        obtain ⟨hc, hoff, hbody⟩ := hL
        have hplen : (toBytes4 (d0 :: dsr).length ++ (d0 :: dsr).flatten).length
            = 4 + (d0 :: dsr).flatten.length := by
          simp [toBytes4_length]
        have hsplit : s.buffer.body
            = (toBytes4 (d0 :: dsr).length ++ (d0 :: dsr).flatten) ++ inline := by
          rw [hbody, List.append_assoc]
        refine ⟨?_, ?_, ?_⟩
        · show buf.header.msgh_bits.complex = true
          rw [hh]
          exact hc
        · simpa [AnyOp.descBytes] using hoff
        · rw [hb, hsplit]
          rw [show s.inline_data_off + a
            = (toBytes4 (d0 :: dsr).length ++ (d0 :: dsr).flatten).length + a by
              rw [hplen, hoff]]
          rw [List.take_append, List.drop_append]
          simp [List.append_assoc, AnyOp.descBytes]

theorem runAnyOps_layout :
    ∀ (ops : List AnyOp) (s s' : MsgBuilder) (ds : List (List Nat)) (inline : List Nat),
      BuilderLayout s ds inline → runAnyOps s ops = some s' →
      ∃ inline', BuilderLayout s' (ds ++ descChunks ops) inline' := by
  intro ops
  induction ops with
  | nil =>
    intro s s' ds inline hL h
    simp only [runAnyOps, List.foldlM] at h
    cases h
    exact ⟨inline, by simpa [descChunks] using hL⟩
  | cons op rest ih =>
    intro s s' ds inline hL h
    simp only [runAnyOps, List.foldlM] at h
    cases hop : runAnyOp s op with
    | none =>
      rw [hop] at h
      exact Option.noConfusion h
    | some s1 =>
      rw [hop] at h
      obtain ⟨inline1, hL1⟩ := runAnyOp_layout s op s1 ds inline hL hop
      obtain ⟨inline', hL'⟩ := ih s1 s' _ inline1 hL1 h
      refine ⟨inline', ?_⟩
      have : ds ++ op.descBytes.toList ++ descChunks rest
          = ds ++ descChunks (op :: rest) := by
        cases hd : op.descBytes <;>
          simp [descChunks, List.filterMap_cons, hd]
      rwa [this] at hL'

/-- C4: for a builder over a fresh buffer and any interleaving of inline
appends/inserts and descriptor appends, the body is always the 4-byte
descriptor count (counting exactly the descriptor appends, starting at body
offset 0 once the first descriptor is appended), then all descriptor records
back to back in append order, then all inline data; without a descriptor
append the message stays non-complex and `inline_data_off` stays 0. -/
theorem builder_descriptor_inline_layout :
    ∀ (cap : Nat) (ops : List AnyOp) (s' : MsgBuilder),
      runAnyOps (MsgBuilder.new (Buffer.with_capacity cap)) ops = some s' →
      (descChunks ops = [] →
        s'.buffer.header.msgh_bits.complex = false ∧ s'.inline_data_off = 0) ∧
      (descChunks ops ≠ [] →
        s'.buffer.header.msgh_bits.complex = true ∧
        s'.inline_data_off = 4 + (descChunks ops).flatten.length ∧
        s'.buffer.descriptors_count = (descChunks ops).length % 4294967296 ∧
        ∃ inline, s'.buffer.body
          = toBytes4 (descChunks ops).length ++ (descChunks ops).flatten ++ inline) := by
  intro cap ops s' h
  have hL0 : BuilderLayout (MsgBuilder.new (Buffer.with_capacity cap)) [] [] :=
    ⟨rfl, rfl, rfl⟩
  obtain ⟨inline, hL⟩ := runAnyOps_layout ops _ s' [] [] hL0 h
  rw [List.nil_append] at hL
  constructor
  · intro hnil
    rw [hnil] at hL
    exact ⟨hL.1, hL.2.1⟩
  · intro hne
    cases hds : descChunks ops with
    | nil => exact absurd hds hne
    | cons c0 cr =>
      rw [hds] at hL
      obtain ⟨hc, hoff, hbody⟩ := hL
      refine ⟨hc, hoff, ?_, ⟨inline, hbody⟩⟩
      unfold Buffer.descriptors_count
      rw [if_pos hc, hbody, List.append_assoc]
      exact readU32_toBytes4 _ _

/-- C4 witness: a concrete interleaving of two descriptor appends with
inline appends and inserts. -/
theorem builder_descriptor_inline_layout_witness :
    ∃ s', runAnyOps (MsgBuilder.new (Buffer.with_capacity 64))
        [.appendInline [1, 2, 3], .appendMovedRight 7 17, .insertInline 1 [8],
          .appendOol 4096 32 1, .appendInline [4]] = some s' ∧
      (descChunks [.appendInline [1, 2, 3], .appendMovedRight 7 17, .insertInline 1 [8],
          .appendOol 4096 32 1, .appendInline [4]] ≠ [] →
        s'.buffer.header.msgh_bits.complex = true ∧
        s'.inline_data_off = 4 + (descChunks [.appendInline [1, 2, 3],
          .appendMovedRight 7 17, .insertInline 1 [8], .appendOol 4096 32 1,
          .appendInline [4]]).flatten.length ∧
        s'.buffer.descriptors_count = (descChunks [.appendInline [1, 2, 3],
          .appendMovedRight 7 17, .insertInline 1 [8], .appendOol 4096 32 1,
          .appendInline [4]]).length % 4294967296 ∧
        ∃ inline, s'.buffer.body
          = toBytes4 (descChunks [.appendInline [1, 2, 3], .appendMovedRight 7 17,
              .insertInline 1 [8], .appendOol 4096 32 1, .appendInline [4]]).length
            ++ (descChunks [.appendInline [1, 2, 3], .appendMovedRight 7 17,
              .insertInline 1 [8], .appendOol 4096 32 1, .appendInline [4]]).flatten
            ++ inline) := by
  cases hrun : runAnyOps (MsgBuilder.new (Buffer.with_capacity 64))
      [.appendInline [1, 2, 3], .appendMovedRight 7 17, .insertInline 1 [8],
        .appendOol 4096 32 1, .appendInline [4]] with
  | none => exact absurd hrun (by decide)
  | some s' =>
    exact ⟨s', rfl, (builder_descriptor_inline_layout 64 _ s' hrun).2⟩

/-! ## Descriptors as the builder encodes them

A `DescSpec` is a descriptor the builder can put into a message: a port
descriptor (from the `append_*_right` family) or an out-of-line data
descriptor (from `append_ool_data` / `append_consumed_ool_data`). -/

inductive DescSpec where
  | port (name disposition : Nat)
  | ool (address : Nat) (deallocate : Bool) (copy size : Nat)
deriving DecidableEq

/-- The wire bytes the builder writes for this descriptor. -/
def DescSpec.encode : DescSpec → List Nat
  | .port n d => portDescBytes n d
  | .ool a dealloc c sz => oolDescBytes a dealloc c sz

/-- Field ranges of a descriptor the builder can actually produce: the name
is a `mach_port_t` (u32), the disposition one of the values the builder
emits, the OOL address a non-null pointer when the region is to be
deallocated, the size a u32 and the copy option a small constant. -/
def DescSpec.wf : DescSpec → Prop
  | .port n d => n < 4294967296 ∧
      (d = MACH_MSG_TYPE_MOVE_RECEIVE ∨ d = MACH_MSG_TYPE_MOVE_SEND
        ∨ d = MACH_MSG_TYPE_MOVE_SEND_ONCE ∨ d = MACH_MSG_TYPE_COPY_SEND
        ∨ d = MACH_MSG_TYPE_MAKE_SEND ∨ d = MACH_MSG_TYPE_MAKE_SEND_ONCE
        ∨ d = MACH_MSG_TYPE_COPY_RECEIVE)
  | .ool a _ c sz => a < 18446744073709551616 ∧ c < 256 ∧ sz < 4294967296 ∧ a ≠ 0

/-- What `MsgBuilder::drop` must release for this descriptor. -/
def DescSpec.dropRelease : DescSpec → List Released
  | .port n d =>
    if d = MACH_MSG_TYPE_MOVE_SEND then [.send n]
    else if d = MACH_MSG_TYPE_MOVE_SEND_ONCE then [.sendOnce n]
    else if d = MACH_MSG_TYPE_MOVE_RECEIVE then [.recv n]
    else []
  | .ool a dealloc _ sz => if dealloc then [.oolRegion a sz] else []

instance DescSpec.wfDecidable : ∀ d : DescSpec, Decidable d.wf := by
  intro d
  cases d <;> · unfold DescSpec.wf; exact inferInstance

/-- How `next_desc_impl` reinterprets this descriptor's bytes. -/
def DescSpec.transmute : DescSpec → TransmutedMsgDesc
  | .port n d => .port n d
  | .ool a dealloc c sz => .ool a (if dealloc then 1 else 0) c sz

theorem portDescBytes_length (n d : Nat) : (portDescBytes n d).length = 12 := rfl

theorem oolDescBytes_length (a : Nat) (dl : Bool) (c sz : Nat) :
    (oolDescBytes a dl c sz).length = 16 := rfl

theorem readU32_append_shift (pre rest : List Nat) (k : Nat) :
    readU32 (pre ++ rest) (pre.length + k) = readU32 rest k := by
  unfold readU32
  rw [show pre.length + k + 1 = pre.length + (k + 1) by omega,
    show pre.length + k + 2 = pre.length + (k + 2) by omega,
    show pre.length + k + 3 = pre.length + (k + 3) by omega,
    getD_append_shift, getD_append_shift, getD_append_shift, getD_append_shift]

theorem readU32_append_self (pre rest : List Nat) :
    readU32 (pre ++ rest) pre.length = readU32 rest 0 := by
  have h := readU32_append_shift pre rest 0
  simpa using h

theorem readU64_append_self (pre rest : List Nat) :
    readU64 (pre ++ rest) pre.length = readU64 rest 0 := by
  unfold readU64
  rw [readU32_append_self, readU32_append_shift]

/-- Decoding an encoded port descriptor recovers it. -/
theorem next_desc_impl_encode_port (n dp : Nat) (pre tail : List Nat)
    (hn : n < 4294967296) (hd : dp < 256) :
    next_desc_impl (pre ++ (portDescBytes n dp ++ tail))
      (pre ++ (portDescBytes n dp ++ tail)).length pre.length
      = some (.port n dp, pre.length + 12) := by
  have hlen : (pre ++ (portDescBytes n dp ++ tail)).length
      = pre.length + (12 + tail.length) := by
    simp [List.length_append, portDescBytes_length]
  unfold next_desc_impl
  rw [hlen]
  rw [if_pos (by omega)]
  dsimp only
  rw [if_pos (by omega)]
  have ht : (pre ++ (portDescBytes n dp ++ tail)).getD (pre.length + 11) 0
      = MACH_MSG_PORT_DESCRIPTOR := by
    rw [getD_append_shift]
    rfl
  rw [ht]
  rw [show size_for_desc_type MACH_MSG_PORT_DESCRIPTOR = some 12 from rfl]
  dsimp only
  rw [if_pos (by omega)]
  rw [if_pos rfl]
  have hr : readU32 (pre ++ (portDescBytes n dp ++ tail)) pre.length = n := by
    rw [readU32_append_self]
    have hexp : readU32 (portDescBytes n dp ++ tail) 0
        = n % 256 + n / 256 % 256 * 256 + n / 65536 % 256 * 65536
          + n / 16777216 % 256 * 16777216 := rfl
    omega
  have hdisp : (pre ++ (portDescBytes n dp ++ tail)).getD (pre.length + 10) 0 = dp := by
    rw [getD_append_shift]
    have hexp : (portDescBytes n dp ++ tail).getD 10 0 = dp % 256 := rfl
    omega
  rw [hr, hdisp]
  rfl

/-- Decoding an encoded out-of-line data descriptor recovers it. -/
theorem next_desc_impl_encode_ool (a : Nat) (dl : Bool) (c sz : Nat) (pre tail : List Nat)
    (ha : a < 18446744073709551616) (hc : c < 256) (hsz : sz < 4294967296) :
    next_desc_impl (pre ++ (oolDescBytes a dl c sz ++ tail))
      (pre ++ (oolDescBytes a dl c sz ++ tail)).length pre.length
      = some (.ool a (if dl then 1 else 0) c sz, pre.length + 16) := by
  have hlen : (pre ++ (oolDescBytes a dl c sz ++ tail)).length
      = pre.length + (16 + tail.length) := by
    simp [List.length_append, oolDescBytes_length]
  unfold next_desc_impl
  rw [hlen]
  rw [if_pos (by omega)]
  dsimp only
  rw [if_pos (by omega)]
  have ht : (pre ++ (oolDescBytes a dl c sz ++ tail)).getD (pre.length + 11) 0
      = MACH_MSG_OOL_DESCRIPTOR := by
    rw [getD_append_shift]
    cases dl <;> rfl
  rw [ht]
  rw [show size_for_desc_type MACH_MSG_OOL_DESCRIPTOR = some 16 from rfl]
  dsimp only
  rw [if_pos (by omega)]
  rw [if_neg (by decide)]
  rw [if_pos rfl]
  have haddr : readU64 (pre ++ (oolDescBytes a dl c sz ++ tail)) pre.length = a := by
    rw [readU64_append_self]
    have hexp : readU64 (oolDescBytes a dl c sz ++ tail) 0
        = (a % 4294967296 % 256 + a % 4294967296 / 256 % 256 * 256
            + a % 4294967296 / 65536 % 256 * 65536
            + a % 4294967296 / 16777216 % 256 * 16777216)
          + (a / 4294967296 % 256 + a / 4294967296 / 256 % 256 * 256
            + a / 4294967296 / 65536 % 256 * 65536
            + a / 4294967296 / 16777216 % 256 * 16777216) * 4294967296 := by
      cases dl <;> rfl
    omega
  have hdl : (pre ++ (oolDescBytes a dl c sz ++ tail)).getD (pre.length + 8) 0
      = if dl then 1 else 0 := by
    rw [getD_append_shift]
    cases dl <;> rfl
  have hcp : (pre ++ (oolDescBytes a dl c sz ++ tail)).getD (pre.length + 9) 0 = c := by
    rw [getD_append_shift]
    have hexp : (oolDescBytes a dl c sz ++ tail).getD 9 0 = c % 256 := by
      cases dl <;> rfl
    omega
  have hsize : readU32 (pre ++ (oolDescBytes a dl c sz ++ tail)) (pre.length + 12) = sz := by
    rw [readU32_append_shift]
    have hexp : readU32 (oolDescBytes a dl c sz ++ tail) 12
        = sz % 256 + sz / 256 % 256 * 256 + sz / 65536 % 256 * 65536
          + sz / 16777216 % 256 * 16777216 := by
      cases dl <;> rfl
    omega
  rw [haddr, hdl, hcp, hsize]
  rfl

/-- The builder's drop walk treats the reinterpreted descriptor exactly as
`DescSpec.dropRelease` predicts, for every descriptor the builder emits. -/
theorem builderDescRelease_transmute (d : DescSpec) (hwf : d.wf) :
    builderDescRelease d.transmute = some d.dropRelease := by
  cases d with
  | port n dp =>
    obtain ⟨hn, hdp⟩ := hwf
    rcases hdp with h | h | h | h | h | h | h <;> subst h <;> rfl
  | ool a dl c sz =>
    obtain ⟨ha, hc, hsz, ha0⟩ := hwf
    cases dl with
    | false => rfl
    | true =>
      show (if (1 : Nat) ≠ 0 then
        if a ≠ 0 then some [Released.oolRegion a sz] else none else some []) = _
      rw [if_pos (by omega), if_pos ha0]
      rfl

/-- The builder's drop walk over an encoded descriptor stream releases
exactly what each descriptor requires, in order. -/
theorem builderDropWalk_encode :
    ∀ (descs : List DescSpec) (pre tail : List Nat),
      (∀ d ∈ descs, d.wf) →
      builderDropWalk (pre ++ ((descs.map DescSpec.encode).flatten ++ tail))
        (pre ++ ((descs.map DescSpec.encode).flatten ++ tail)).length
        descs.length pre.length
        = some (descs.map DescSpec.dropRelease).flatten := by
  intro descs
  induction descs with
  | nil =>
    intro pre tail hwf
    rfl
  | cons d rest ih =>
    intro pre tail hwf
    have hd := hwf d (by simp)
    have hrest : ∀ x ∈ rest, x.wf := fun x hx => hwf x (by simp [hx])
    have hsplit : ((d :: rest).map DescSpec.encode).flatten ++ tail
        = d.encode ++ ((rest.map DescSpec.encode).flatten ++ tail) := by
      simp [List.append_assoc]
    rw [hsplit]
    have hnext : next_desc_impl (pre ++ (d.encode ++ ((rest.map DescSpec.encode).flatten ++ tail)))
        (pre ++ (d.encode ++ ((rest.map DescSpec.encode).flatten ++ tail))).length pre.length
        = some (d.transmute, pre.length + d.encode.length) := by
      cases d with
      | port n dp =>
        obtain ⟨hn, hdp⟩ := hd
        have hd256 : dp < 256 := by
          rcases hdp with h | h | h | h | h | h | h <;> subst h <;> decide
        exact next_desc_impl_encode_port n dp pre _ hn hd256
      | ool a dl c sz =>
        obtain ⟨ha, hc, hsz, ha0⟩ := hd
        exact next_desc_impl_encode_ool a dl c sz pre _ ha hc hsz
    have hih := ih (pre ++ d.encode) tail hrest
    rw [List.append_assoc] at hih
    rw [show (pre ++ d.encode).length = pre.length + d.encode.length from
      List.length_append _ _] at hih
    show builderDropWalk _ _ (rest.length + 1) pre.length = _
    rw [builderDropWalk]
    rw [hnext]
    simp only [Option.bind_eq_bind, Option.some_bind]
    rw [builderDescRelease_transmute d hd]
    simp only [Option.some_bind]
    rw [hih]
    simp only [Option.some_bind, Option.pure_def]
    simp

theorem dropHeaderLocalPart_spec (h : MachMsgHeader)
    (hlocal : h.msgh_local_port ≠ MACH_PORT_NULL →
      (h.msgh_bits.local_ = MACH_MSG_TYPE_MOVE_SEND
        ∨ h.msgh_bits.local_ = MACH_MSG_TYPE_MOVE_SEND_ONCE
        ∨ h.msgh_bits.local_ = MACH_MSG_TYPE_COPY_SEND
        ∨ h.msgh_bits.local_ = MACH_MSG_TYPE_MAKE_SEND
        ∨ h.msgh_bits.local_ = MACH_MSG_TYPE_MAKE_SEND_ONCE)) :
    dropHeaderLocalPart h
      = some ({ h with msgh_local_port := MACH_PORT_NULL }, releaseLocalSlot h) := by
  unfold dropHeaderLocalPart releaseLocalSlot
  by_cases hlp : h.msgh_local_port ≠ MACH_PORT_NULL
  · rw [if_pos hlp, if_pos hlp]
    dsimp only
    rcases hlocal hlp with hd | hd | hd | hd | hd <;> rw [hd] <;>
      simp [MACH_MSG_TYPE_MOVE_SEND, MACH_MSG_TYPE_MOVE_SEND_ONCE,
        MACH_MSG_TYPE_COPY_SEND, MACH_MSG_TYPE_MAKE_SEND, MACH_MSG_TYPE_MAKE_SEND_ONCE]
  · rw [if_neg hlp, if_neg hlp]
    push_neg at hlp
    cases h
    simp_all

theorem dropHeaderVoucherPart_null (h : MachMsgHeader)
    (hv : h.msgh_voucher_port = MACH_PORT_NULL) :
    dropHeaderVoucherPart h = some (h, []) := by
  unfold dropHeaderVoucherPart
  rw [if_neg (by simp [hv])]

theorem drop_header_spec (h : MachMsgHeader)
    (hlocal : h.msgh_local_port ≠ MACH_PORT_NULL →
      (h.msgh_bits.local_ = MACH_MSG_TYPE_MOVE_SEND
        ∨ h.msgh_bits.local_ = MACH_MSG_TYPE_MOVE_SEND_ONCE
        ∨ h.msgh_bits.local_ = MACH_MSG_TYPE_COPY_SEND
        ∨ h.msgh_bits.local_ = MACH_MSG_TYPE_MAKE_SEND
        ∨ h.msgh_bits.local_ = MACH_MSG_TYPE_MAKE_SEND_ONCE))
    (hv : h.msgh_voucher_port = MACH_PORT_NULL)
    (hr : h.msgh_remote_port = MACH_PORT_NULL)
    (hrb : h.msgh_bits.remote = 0) :
    drop_header h = some ({ h with
      msgh_local_port := MACH_PORT_NULL
      msgh_bits := MachMsgBits.new h.msgh_bits.complex 0 0 0 }, releaseLocalSlot h) := by
  unfold drop_header
  rw [dropHeaderLocalPart_spec h hlocal]
  simp only [Option.bind_eq_bind, Option.some_bind]
  rw [dropHeaderVoucherPart_null _ (by simpa using hv)]
  simp only [Option.some_bind]
  rw [if_pos ⟨by simpa using hr, by simpa using hrb⟩]
  simp

/-- C2: dropping a never-sent `MsgBuilder` performs exactly one release walk:
the local/reply slot's move-send/move-send-once right is released exactly
once (copy/make dispositions release nothing), every descriptor in the table
is visited exactly once — releasing one Send/SendOnce/Receive reference per
move-disposition port descriptor, nothing for copy/make port descriptors,
and unmapping the region of every OOL descriptor with the deallocate flag —
and a zero-descriptor table produces no descriptor releases. -/
theorem builder_drop_release_walk :
    ∀ (s : MsgBuilder) (descs : List DescSpec) (inline : List Nat),
      (∀ d ∈ descs, d.wf) →
      descs.length < 4294967296 →
      (s.buffer.header.msgh_local_port ≠ MACH_PORT_NULL →
        (s.buffer.header.msgh_bits.local_ = MACH_MSG_TYPE_MOVE_SEND
          ∨ s.buffer.header.msgh_bits.local_ = MACH_MSG_TYPE_MOVE_SEND_ONCE
          ∨ s.buffer.header.msgh_bits.local_ = MACH_MSG_TYPE_COPY_SEND
          ∨ s.buffer.header.msgh_bits.local_ = MACH_MSG_TYPE_MAKE_SEND
          ∨ s.buffer.header.msgh_bits.local_ = MACH_MSG_TYPE_MAKE_SEND_ONCE)) →
      s.buffer.header.msgh_voucher_port = MACH_PORT_NULL →
      s.buffer.header.msgh_remote_port = MACH_PORT_NULL →
      s.buffer.header.msgh_bits.remote = 0 →
      (if descs.isEmpty then s.buffer.header.msgh_bits.complex = false
        else s.buffer.header.msgh_bits.complex = true ∧
          s.buffer.body = toBytes4 descs.length
            ++ ((descs.map DescSpec.encode).flatten ++ inline)) →
      s.drop = some (releaseLocalSlot s.buffer.header
        ++ (descs.map DescSpec.dropRelease).flatten) := by
  intro s descs inline hwf hn hlocal hv hr hrb hlayout
  unfold MsgBuilder.drop
  rw [drop_header_spec s.buffer.header hlocal hv hr hrb]
  simp only [Option.bind_eq_bind, Option.some_bind]
  cases descs with
  | nil =>
    have hcomplex : s.buffer.header.msgh_bits.complex = false := by simpa using hlayout
    simp [Buffer.descriptors_count, MachMsgBits.new, hcomplex, builderDropWalk]
  | cons d0 rest =>
    have hlay : s.buffer.header.msgh_bits.complex = true ∧
        s.buffer.body = toBytes4 (d0 :: rest).length
          ++ (((d0 :: rest).map DescSpec.encode).flatten ++ inline) := by
      simpa using hlayout
    obtain ⟨hc, hbody⟩ := hlay
    have hcnt : readU32 s.buffer.body 0 = (d0 :: rest).length := by
      rw [hbody, readU32_toBytes4]
      omega
    simp only [Buffer.descriptors_count, MachMsgBits.new, hc, hcnt, if_true]
    have hwalk := builderDropWalk_encode (d0 :: rest) (toBytes4 (d0 :: rest).length)
      inline hwf
    rw [show ((toBytes4 (d0 :: rest).length) : List Nat).length = 4 from rfl] at hwalk
    rw [show s.buffer.body = toBytes4 (d0 :: rest).length
      ++ (((d0 :: rest).map DescSpec.encode).flatten ++ inline) from hbody]
    rw [hwalk]
    rfl

/-- C2 witness: a builder holding a moved send-once reply right, one moved
send-right descriptor and one consumed OOL descriptor. -/
theorem builder_drop_release_walk_witness :
    (MsgBuilder.mk
      (Buffer.mk
        ⟨⟨true, 0, MACH_MSG_TYPE_MOVE_SEND_ONCE, 0⟩, 0, 0, 9, 0, 0⟩
        (toBytes4 2 ++ ((([DescSpec.port 7 17, DescSpec.ool 4096 true 1 32].map
          DescSpec.encode).flatten) ++ [5, 6]))
        128)
      24).drop
      = some [.sendOnce 9, .send 7, .oolRegion 4096 32] := by
  have h := builder_drop_release_walk
    (MsgBuilder.mk
      (Buffer.mk
        ⟨⟨true, 0, MACH_MSG_TYPE_MOVE_SEND_ONCE, 0⟩, 0, 0, 9, 0, 0⟩
        (toBytes4 2 ++ ((([DescSpec.port 7 17, DescSpec.ool 4096 true 1 32].map
          DescSpec.encode).flatten) ++ [5, 6]))
        128)
      24)
    [DescSpec.port 7 17, DescSpec.ool 4096 true 1 32] [5, 6]
    (by decide) (by decide) (by decide) (by decide) (by decide) (by decide) (by decide)
  rw [h]
  decide

/-! ## C1: the parser's abandonment cleanup on out-of-line descriptors -/

/-- A received message (complex, `msgh_size` 44 = 24-byte header + 20-byte
body) whose single remaining descriptor is an out-of-line data descriptor
(address 4096, deallocate set, size 16). -/
def oolMsgBuffer : Buffer :=
  { header := ⟨⟨true, 0, 0, 0⟩, 44, 0, 0, 0, 0⟩
    body := toBytes4 1 ++ oolDescBytes 4096 true 1 16
    capacity := 64 }

/-- A received message whose single remaining descriptor is a move-send port
descriptor for name 7 (`msgh_size` 40 = 24 + 16-byte body). -/
def portMsgBuffer : Buffer :=
  { header := ⟨⟨true, 0, 0, 0⟩, 40, 0, 0, 0, 0⟩
    body := toBytes4 1 ++ portDescBytes 7 MACH_MSG_TYPE_MOVE_SEND
    capacity := 64 }

/-- C1 (code bug): abandoning the parser does release remaining move-kind
port-descriptor rights (the move-send right 7 is released exactly once), but
on a remaining out-of-line data descriptor `DescParser::drop` /
`MsgParser::drop` hit `unimplemented!` — a panic (`none`) — instead of
releasing the referenced VM region; the builder's own drop walk releases
that very region for the same bytes, showing the release logic the parser
drop lacks. -/
theorem parser_drop_ool_unimplemented :
    msgParserDrop portMsgBuffer = some [.send 7] ∧
    msgParserDrop oolMsgBuffer = none ∧
    builderDropWalk oolMsgBuffer.body oolMsgBuffer.body.length 1 4
      = some [.oolRegion 4096 16] := by
  refine ⟨by decide, by decide, by decide⟩

end MachPorts
